import Mathlib

/-!
Verification of the portfolio valuation and transaction-handling layer of the
investment-advisory web application.  The backend controller
(portfolioController, file part_009) is embedded as pure functions over an
explicit database state; monetary quantities and share counts are modelled as
exact rationals.  Components the specification defines but whose code is not
present in the repository (the lot ledger, the portfolio aggregator and the
drawdown statistic) are modelled from the specification text and are marked as
such in their doc comments.
-/

/-- Transaction type, source: backend types, Transaction.type : BUY | SELL. -/
inductive TxnType where
  | BUY
  | SELL
deriving DecidableEq

/-- A portfolio row.  Source: Portfolio in backend types (id, userId, name,
createdAt used by getPortfolios orderBy). -/
structure Portfolio where
  pid : String
  userId : String
  name : String
  createdAt : Nat
deriving DecidableEq

/-- A position row.  Source: Position in backend types. -/
structure Position where
  portfolioId : String
  symbol : String
  shares : ℚ
  averagePrice : ℚ
  currentPrice : ℚ
  marketValue : ℚ
  costBasis : ℚ
  gain : ℚ
  gainPercent : ℚ
  weight : ℚ
deriving DecidableEq

/-- A transaction row.  Source: Transaction in backend types; userId is set by
addTransaction; date stands for the creation timestamp used by orderBy. -/
structure Txn where
  portfolioId : String
  userId : String
  symbol : String
  ttype : TxnType
  shares : ℚ
  price : ℚ
  total : ℚ
  fees : ℚ
  date : Nat
  notes : Option String
deriving DecidableEq

/-- The relational store the Prisma client reads and writes. -/
structure DB where
  portfolios : List Portfolio
  positions : List Position
  transactions : List Txn
deriving DecidableEq

/-- One item of the getPortfolios response: the portfolio with its included
positions and the two _count aggregates. -/
structure PortfolioRow where
  portfolio : Portfolio
  positions : List Position
  positionsCount : Nat
  transactionsCount : Nat
deriving DecidableEq

/-- Response payloads of the controller operations. -/
inductive RespData where
  | portfolioRows (rows : List PortfolioRow)
  | portfolioDetail (p : Portfolio) (ps : List Position) (ts : List Txn)
  | portfolioData (p : Portfolio)
  | portfolioFound (p : Option Portfolio)
  | noData
  | positionRows (ps : List Position)
  | positionData (q : Position)
  | positionFound (q : Option Position)
  | txnRows (ts : List Txn)
  | txnData (t : Txn)
deriving DecidableEq

/-- Stable descending insertion by key, modelling a Prisma orderBy desc. -/
def insertDescBy {α κ : Type} [LinearOrder κ] (key : α → κ) (a : α) :
    List α → List α
  | [] => [a]
  | b :: bs => if key b < key a then a :: b :: bs else b :: insertDescBy key a bs

/-- Descending stable sort by key, modelling a Prisma orderBy desc. -/
def sortDescBy {α κ : Type} [LinearOrder κ] (key : α → κ) (l : List α) :
    List α :=
  l.foldr (insertDescBy key) []

/-- Whether some portfolio row with this id is owned by user u; this is the
Prisma relation filter portfolio: \x7b userId: u \x7d on positions and
transactions. -/
def ownsPortfolio (u : String) (d : DB) (pid : String) : Bool :=
  d.portfolios.any (fun p => p.pid == pid && p.userId == u)

/-- getPortfolios: findMany where userId, include positions and _count,
orderBy createdAt desc. -/
def getPortfoliosOp (u : String) (d : DB) : DB × Except String RespData :=
  (d, .ok (.portfolioRows
    ((sortDescBy Portfolio.createdAt
        (d.portfolios.filter (fun p => p.userId == u))).map
      (fun p =>
        ⟨p, d.positions.filter (fun q => q.portfolioId == p.pid),
         (d.positions.filter (fun q => q.portfolioId == p.pid)).length,
         (d.transactions.filter (fun t => t.portfolioId == p.pid)).length⟩))))

/-- getPortfolio: findFirst where id and userId, include positions and the 10
most recent transactions (orderBy date desc, take 10). -/
def getPortfolioOp (u : String) (id : String) (d : DB) :
    DB × Except String RespData :=
  match d.portfolios.find? (fun p => p.pid == id && p.userId == u) with
  | none => (d, .error "Portfolio not found")
  | some p =>
    (d, .ok (.portfolioDetail p
      (d.positions.filter (fun q => q.portfolioId == p.pid))
      ((sortDescBy Txn.date
          (d.transactions.filter (fun t => t.portfolioId == p.pid))).take 10)))

/-- createPortfolio: create with name and userId; freshId and now stand for
the generated id and timestamp. -/
def createPortfolioOp (u name freshId : String) (now : Nat) (d : DB) :
    DB × Except String RespData :=
  (⟨d.portfolios ++ [⟨freshId, u, name, now⟩], d.positions, d.transactions⟩,
   .ok (.portfolioData ⟨freshId, u, name, now⟩))

/-- updatePortfolio: updateMany where id and userId setting name, throw when
count is 0, then findUnique by id alone for the response body. -/
def updatePortfolioOp (u id name : String) (d : DB) :
    DB × Except String RespData :=
  let hit := fun p : Portfolio => p.pid == id && p.userId == u
  let ps2 := d.portfolios.map
    (fun p => if hit p then ⟨p.pid, p.userId, name, p.createdAt⟩ else p)
  let d2 : DB := ⟨ps2, d.positions, d.transactions⟩
  if (d.portfolios.filter hit).length = 0 then
    (d2, .error "Portfolio not found")
  else
    (d2, .ok (.portfolioFound (ps2.find? (fun p => p.pid == id))))

/-- deletePortfolio: deleteMany where id and userId, throw when count is 0.
Child positions and transactions of the deleted rows are removed as well
(onDelete cascade of the Prisma schema, spec section 3). -/
def deletePortfolioOp (u id : String) (d : DB) : DB × Except String RespData :=
  let hit := fun p : Portfolio => p.pid == id && p.userId == u
  let matched := d.portfolios.filter hit
  let d2 : DB :=
    ⟨d.portfolios.filter (fun p => !(hit p)),
     d.positions.filter (fun q => !(matched.any (fun p => p.pid == q.portfolioId))),
     d.transactions.filter (fun t => !(matched.any (fun p => p.pid == t.portfolioId)))⟩
  if matched.length = 0 then (d2, .error "Portfolio not found")
  else (d2, .ok .noData)

/-- getPositions: findMany where portfolioId and portfolio.userId, orderBy
marketValue desc. -/
def getPositionsOp (u id : String) (d : DB) : DB × Except String RespData :=
  (d, .ok (.positionRows
    (sortDescBy Position.marketValue
      (d.positions.filter
        (fun q => q.portfolioId == id && ownsPortfolio u d q.portfolioId)))))

/-- The update branch of the addPosition upsert: shares are incremented and
averagePrice is set to the 0 placeholder (source comment: Recalculate average
price / This would need proper calculation). -/
def upsertUpdate (shares : ℚ) (q : Position) : Position :=
  ⟨q.portfolioId, q.symbol, q.shares + shares, 0, q.currentPrice,
   q.marketValue, q.costBasis, q.gain, q.gainPercent, q.weight⟩

/-- The create branch of the addPosition upsert. -/
def upsertCreate (id symbol : String) (shares averagePrice : ℚ) : Position :=
  ⟨id, symbol, shares, averagePrice, averagePrice, shares * averagePrice,
   shares * averagePrice, 0, 0, 0⟩

/-- addPosition: verify the portfolio belongs to the user, then upsert on the
unique key (portfolioId, symbol). -/
def addPositionOp (u id symbol : String) (shares averagePrice : ℚ) (d : DB) :
    DB × Except String RespData :=
  match d.portfolios.find? (fun p => p.pid == id && p.userId == u) with
  | none => (d, .error "Portfolio not found")
  | some _ =>
    let key := fun q : Position => q.portfolioId == id && q.symbol == symbol
    match d.positions.find? key with
    | some _ =>
      let qs2 := d.positions.map (fun q => if key q then upsertUpdate shares q else q)
      (⟨d.portfolios, qs2, d.transactions⟩, .ok (.positionFound (qs2.find? key)))
    | none =>
      (⟨d.portfolios, d.positions ++ [upsertCreate id symbol shares averagePrice],
        d.transactions⟩,
       .ok (.positionData (upsertCreate id symbol shares averagePrice)))

/-- updatePosition: updateMany where portfolioId, symbol and portfolio.userId
setting shares and averagePrice, throw when count is 0, then findFirst by
portfolioId and symbol alone for the response body. -/
def updatePositionOp (u id symbol : String) (shares averagePrice : ℚ)
    (d : DB) : DB × Except String RespData :=
  let hit := fun q : Position =>
    q.portfolioId == id && q.symbol == symbol && ownsPortfolio u d q.portfolioId
  let qs2 := d.positions.map
    (fun q => if hit q then
      ⟨q.portfolioId, q.symbol, shares, averagePrice, q.currentPrice,
       q.marketValue, q.costBasis, q.gain, q.gainPercent, q.weight⟩
      else q)
  let d2 : DB := ⟨d.portfolios, qs2, d.transactions⟩
  if (d.positions.filter hit).length = 0 then
    (d2, .error "Position not found")
  else
    (d2, .ok (.positionFound
      (qs2.find? (fun q => q.portfolioId == id && q.symbol == symbol))))

/-- removePosition: deleteMany where portfolioId, symbol and portfolio.userId,
throw when count is 0. -/
def removePositionOp (u id symbol : String) (d : DB) :
    DB × Except String RespData :=
  let hit := fun q : Position =>
    q.portfolioId == id && q.symbol == symbol && ownsPortfolio u d q.portfolioId
  let d2 : DB := ⟨d.portfolios, d.positions.filter (fun q => !(hit q)),
    d.transactions⟩
  if (d.positions.filter hit).length = 0 then
    (d2, .error "Position not found")
  else (d2, .ok .noData)

/-- getTransactions: findMany where portfolioId and portfolio.userId, orderBy
date desc, skip offset, take limit. -/
def getTransactionsOp (u id : String) (limit offset : Nat) (d : DB) :
    DB × Except String RespData :=
  (d, .ok (.txnRows
    (((sortDescBy Txn.date
        (d.transactions.filter
          (fun t => t.portfolioId == id && ownsPortfolio u d t.portfolioId))).drop
      offset).take limit)))

/-- The transaction record addTransaction creates: total is
shares * price + fees for either transaction type. -/
def mkTxn (u id symbol : String) (ty : TxnType) (shares price fees : ℚ)
    (notes : Option String) (now : Nat) : Txn :=
  ⟨id, u, symbol, ty, shares, price, shares * price + fees, fees, now, notes⟩

/-- addTransaction: verify the portfolio belongs to the user, then create the
transaction record; no ledger replay and no check against held shares is
performed. -/
def addTransactionOp (u id symbol : String) (ty : TxnType)
    (shares price fees : ℚ) (notes : Option String) (now : Nat) (d : DB) :
    DB × Except String RespData :=
  match d.portfolios.find? (fun p => p.pid == id && p.userId == u) with
  | none => (d, .error "Portfolio not found")
  | some _ =>
    (⟨d.portfolios, d.positions,
      d.transactions ++ [mkTxn u id symbol ty shares price fees notes now]⟩,
     .ok (.txnData (mkTxn u id symbol ty shares price fees notes now)))

/-- The portfolio-controller operations and their request parameters. -/
inductive Op where
  | getPortfolios
  | getPortfolio (id : String)
  | createPortfolio (name freshId : String) (now : Nat)
  | updatePortfolio (id name : String)
  | deletePortfolio (id : String)
  | getPositions (id : String)
  | addPosition (id symbol : String) (shares averagePrice : ℚ)
  | updatePosition (id symbol : String) (shares averagePrice : ℚ)
  | removePosition (id symbol : String)
  | getTransactions (id : String) (limit offset : Nat)
  | addTransaction (id symbol : String) (ty : TxnType) (shares price fees : ℚ)
      (notes : Option String) (now : Nat)

/-- Dispatch of an authenticated request (u is req.user.id) to the controller. -/
def exec (u : String) (op : Op) (d : DB) : DB × Except String RespData :=
  match op with
  | .getPortfolios => getPortfoliosOp u d
  | .getPortfolio id => getPortfolioOp u id d
  | .createPortfolio name freshId now => createPortfolioOp u name freshId now d
  | .updatePortfolio id name => updatePortfolioOp u id name d
  | .deletePortfolio id => deletePortfolioOp u id d
  | .getPositions id => getPositionsOp u id d
  | .addPosition id symbol shares averagePrice =>
      addPositionOp u id symbol shares averagePrice d
  | .updatePosition id symbol shares averagePrice =>
      updatePositionOp u id symbol shares averagePrice d
  | .removePosition id symbol => removePositionOp u id symbol d
  | .getTransactions id limit offset => getTransactionsOp u id limit offset d
  | .addTransaction id symbol ty shares price fees notes now =>
      addTransactionOp u id symbol ty shares price fees notes now d

/-- Modelled from the spec: one open lot of the lot ledger, a purchased
quantity at a unit cost (section 4.1); the engine itself is absent from the
repository source. -/
structure Lot where
  shares : ℚ
  unitCost : ℚ
deriving DecidableEq

/-- Modelled from the spec: a ledger transaction as fed to shares_and_cost. -/
structure LedgerTxn where
  ttype : TxnType
  shares : ℚ
  price : ℚ
  fees : ℚ
deriving DecidableEq

/-- Modelled from the spec: FIFO consumption of lots by a SELL (section 4.1);
none signals InsufficientSharesError. -/
def consumeLots : ℚ → List Lot → Option (List Lot)
  | need, [] => if need ≤ 0 then some [] else none
  | need, l :: ls =>
    if need ≤ 0 then some (l :: ls)
    else if need < l.shares then some (⟨l.shares - need, l.unitCost⟩ :: ls)
    else consumeLots (need - l.shares) ls

/-- Modelled from the spec: chronological replay of the transaction list over
an ordered sequence of open lots.  BUY appends a lot of unit cost
price + fees / shares; SELL consumes from the front (FIFO); an oversized SELL
fails with InsufficientSharesError, leaving nothing applied (section 4.1). -/
def replayLedger : List Lot → List LedgerTxn → Except String (List Lot)
  | lots, [] => .ok lots
  | lots, t :: ts =>
    match t.ttype with
    | .BUY => replayLedger (lots ++ [⟨t.shares, t.price + t.fees / t.shares⟩]) ts
    | .SELL =>
      match consumeLots t.shares lots with
      | none => .error "InsufficientSharesError"
      | some lots2 => replayLedger lots2 ts

/-- Sum of remaining lot shares. -/
def lotShares (lots : List Lot) : ℚ := (lots.map Lot.shares).sum

/-- Sum of remaining lot cost. -/
def lotCost (lots : List Lot) : ℚ := (lots.map (fun l => l.shares * l.unitCost)).sum

/-- Modelled from the spec: the shares_and_cost ledger query of section 4.1,
returning shares, costBasis and the blended averagePrice. -/
def sharesAndCost (ts : List LedgerTxn) : Except String (ℚ × ℚ × ℚ) :=
  (replayLedger [] ts).map fun lots =>
    (lotShares lots, lotCost lots,
     if lotShares lots = 0 then 0 else lotCost lots / lotShares lots)

/-- Modelled from the spec: portfolio total value of the aggregator, the sum
of the position market values (sections 3 and 4.3). -/
def totalValueOf (ps : List Position) : ℚ := (ps.map Position.marketValue).sum

/-- Modelled from the spec: the second pass of the aggregator assigning
weight = marketValue / totalValue * 100 to each position, 0 when totalValue
is 0 (section 4.3); the aggregator is absent from the repository source. -/
def assignWeights (ps : List Position) : List Position :=
  ps.map fun p =>
    ⟨p.portfolioId, p.symbol, p.shares, p.averagePrice, p.currentPrice,
     p.marketValue, p.costBasis, p.gain, p.gainPercent,
     if totalValueOf ps = 0 then 0 else p.marketValue / totalValueOf ps * 100⟩

/-- Modelled from the spec: the list of drawdowns value_t / runningMax - 1,
carrying the running maximum m through the series (section 4.4). -/
def drawdowns (m : ℚ) : List ℚ → List ℚ
  | [] => []
  | v :: vs => (v / (max m v) - 1) :: drawdowns (max m v) vs

/-- Modelled from the spec: maxDrawdown of a portfolio value series, the
single-pass running-maximum computation of section 4.4; the analytics engine
is absent from the repository source.  The running maximum is seeded with 0,
which agrees with the maximum over the prefix for positive value series. -/
def maxDrawdown (s : List ℚ) : ℚ := (drawdowns 0 s).foldl min 0

/-- The drawdown at index t written declaratively as the claim states it:
value_t over the running maximum of values 0..t, minus 1. -/
def drawdownAt (s : List ℚ) (t : Nat) : ℚ :=
  s.getD t 0 / ((s.take (t + 1)).foldl max 0) - 1

/-- The minimum over t of drawdownAt, the formula named by the claim. -/
def minDrawdownFormula (s : List ℚ) : ℚ :=
  ((List.range s.length).map (drawdownAt s)).foldl min 0

/-- Question kinds of the risk assessment component. -/
inductive QKind where
  | multiple_choice
  | scale
  | text
deriving DecidableEq

/-- A risk questionnaire entry, source: RiskQuestion in the risk-assessment
component. -/
structure RiskQuestion where
  qid : String
  question : String
  kind : QKind
  options : Option (List String)
  weight : ℚ
  category : String
deriving DecidableEq

/-- A recorded answer: the component stores strings for multiple-choice
buttons and numbers for the 1..10 scale buttons. -/
inductive AnswerVal where
  | str (s : String)
  | num (x : ℚ)
deriving DecidableEq

/-- The result of calculateRiskProfile. -/
inductive RiskKind where
  | conservative
  | moderate
  | aggressive
deriving DecidableEq

/-- JavaScript Array.indexOf over a string option list: -1 when the answer is
absent or is not a string. -/
def jsIndexOf (opts : List String) (a : AnswerVal) : ℤ :=
  match a with
  | .num _ => -1
  | .str s => go opts s
where
  go : List String → String → ℤ
  | [], _ => -1
  | o :: os, s =>
    if o = s then 0
    else if go os s = -1 then -1 else go os s + 1

/-- JavaScript x or-else 0 on a number x: only a falsy x (that is, 0) is
replaced by 0, so -1 passes through unchanged. -/
def jsOr0 (x : ℤ) : ℤ := if x = 0 then 0 else x

/-- The option index computed by calculateRiskProfile:
question.options?.indexOf(answer) || 0.  When options is undefined the
optional chain yields undefined and the or-else supplies 0; when options is
present the or-else is the identity on the indexOf result (including -1). -/
def optionIndexOf (options : Option (List String)) (a : AnswerVal) : ℤ :=
  match options with
  | none => 0
  | some opts => jsOr0 (jsIndexOf opts a)

/-- Numeric coercion of a scale answer.  A string answer to a scale question
would be NaN in the source; the UI only records numbers for scale questions,
and no statement below evaluates that corner. -/
def numVal : AnswerVal → ℚ
  | .num x => x
  | .str _ => 0

/-- The (totalScore, maxScore) contribution of one question given the answer
record, source: the forEach body of calculateRiskProfile.  An unanswered
question contributes to neither sum; an answered one always contributes
(options.length or-else 10) * weight to maxScore. -/
def questionScore (answers : List (String × AnswerVal)) (q : RiskQuestion) :
    ℚ × ℚ :=
  match answers.lookup q.qid with
  | none => (0, 0)
  | some a =>
    let s : ℚ :=
      match q.kind with
      | .multiple_choice => ((optionIndexOf q.options a + 1 : ℤ) : ℚ) * q.weight
      | .scale => numVal a * q.weight
      | .text => 0
    let mx : ℚ :=
      (match q.options with
       | some opts => (opts.length : ℚ)
       | none => 10) * q.weight
    (s, mx)

/-- The riskQuestions fixture, questions 1 to 6 of the component. -/
def rq1 : RiskQuestion :=
  ⟨"1", "What is your primary investment goal?", .multiple_choice,
   some ["Capital preservation", "Income generation", "Growth",
         "Aggressive growth"], 3, "Investment Goals"⟩

def rq2 : RiskQuestion :=
  ⟨"2", "What is your investment time horizon?", .multiple_choice,
   some ["Less than 1 year", "1-3 years", "3-5 years", "5-10 years",
         "More than 10 years"], 4, "Time Horizon"⟩

def rq3 : RiskQuestion :=
  ⟨"3", "How would you react to a 20% decline in your portfolio value?",
   .multiple_choice,
   some ["Sell all investments immediately",
         "Sell some investments to reduce risk",
         "Hold and wait for recovery",
         "Buy more while prices are low"], 5, "Risk Tolerance"⟩

def rq4 : RiskQuestion :=
  ⟨"4", "What percentage of your income do you invest?", .multiple_choice,
   some ["Less than 5%", "5-10%", "10-20%", "20-30%", "More than 30%"], 2,
   "Financial Situation"⟩

def rq5 : RiskQuestion :=
  ⟨"5", "Rate your investment knowledge (1-10)", .scale, none, 2, "Knowledge"⟩

def rq6 : RiskQuestion :=
  ⟨"6", "How important is it to beat the market average?", .multiple_choice,
   some ["Not important at all", "Somewhat important", "Very important",
         "Extremely important"], 3, "Performance Expectations"⟩

def riskQuestions : List RiskQuestion := [rq1, rq2, rq3, rq4, rq5, rq6]

/-- calculateRiskProfile: weighted sum over the questionnaire, then thresholds
at 30 and 70 on totalScore / maxScore * 100.  When maxScore is 0 the source
divides 0 by 0 giving NaN, every comparison is false and the else branch
selects aggressive; the model mirrors that branch explicitly. -/
def calculateRiskProfile (answers : List (String × AnswerVal)) : RiskKind :=
  let tm := riskQuestions.foldl
    (fun acc q =>
      let p := questionScore answers q
      (acc.1 + p.1, acc.2 + p.2)) ((0 : ℚ), (0 : ℚ))
  if tm.2 = 0 then .aggressive
  else
    let riskScore := tm.1 / tm.2 * 100
    if riskScore < 30 then .conservative
    else if riskScore < 70 then .moderate
    else .aggressive

/-- A transaction request body as posted to the transactions route. -/
structure TxnReq where
  symbol : String
  ttype : TxnType
  shares : ℚ
  price : ℚ
  fees : Option ℚ
  notes : Option String
deriving DecidableEq

/-- The transactionValidation rules of the portfolios router: symbol trimmed
to length 1..10, type BUY or SELL (inherent in TxnType), shares at least
0.0001, price at least 0.01, fees when present at least 0. -/
def txnValid (r : TxnReq) : Bool :=
  decide (1 ≤ r.symbol.trim.length) && decide (r.symbol.trim.length ≤ 10) &&
  decide ((1 : ℚ) / 10000 ≤ r.shares) && decide ((1 : ℚ) / 100 ≤ r.price) &&
  (match r.fees with
   | none => true
   | some f => decide ((0 : ℚ) ≤ f))

/-- Modelled from the spec: the validateRequest middleware body is not in the
repository source (only its import and placement in the route chain are); per
the routes and spec section 7, a request failing the validation rules is
rejected with InvalidTransactionError before the controller
(and hence before any ledger replay) runs; fees default to 0 in the
controller. -/
def postTransactionRoute (u : String) (r : TxnReq) (now : Nat) (id : String)
    (d : DB) : DB × Except String RespData :=
  if txnValid r then
    addTransactionOp u id r.symbol.trim r.ttype r.shares r.price
      (r.fees.getD 0) r.notes now d
  else (d, .error "InvalidTransactionError")

/-- Open lots all hold positively many shares at a non-negative unit cost;
replay of validated transactions preserves this. -/
def GoodLots (lots : List Lot) : Prop := ∀ l ∈ lots, 0 < l.shares ∧ 0 ≤ l.unitCost

/-- View of a stored transaction row as a ledger transaction. -/
def txnToLedger (t : Txn) : LedgerTxn := ⟨t.ttype, t.shares, t.price, t.fees⟩

/-- Modelled from the spec: the held shares and cost the ledger of section 4.1
reports for one (portfolio, symbol) of the stored transaction list; the
repository source has no such query. -/
def heldFor (d : DB) (pid symbol : String) : Except String (ℚ × ℚ × ℚ) :=
  sharesAndCost
    ((d.transactions.filter
        (fun t => t.portfolioId == pid && t.symbol == symbol)).map txnToLedger)

/-- The rows of the store owned by user u: the portfolios with that userId and
the positions and transactions whose portfolio is owned by u. -/
def userView (u : String) (d : DB) : DB :=
  ⟨d.portfolios.filter (fun p => p.userId == u),
   d.positions.filter (fun q => ownsPortfolio u d q.portfolioId),
   d.transactions.filter (fun t => ownsPortfolio u d t.portfolioId)⟩

/-- The portfolios of every user other than u. -/
def othersPortfolios (u : String) (d : DB) : List Portfolio :=
  d.portfolios.filter (fun p => !(p.userId == u))

/-- Whether some portfolio row with this id is owned by a user other than u. -/
def ownedByOther (u : String) (d : DB) (pid : String) : Bool :=
  (othersPortfolios u d).any (fun p => p.pid == pid)

/-- The rows of the store owned by users other than u. -/
def othersView (u : String) (d : DB) : DB :=
  ⟨othersPortfolios u d,
   d.positions.filter (fun q => ownedByOther u d q.portfolioId),
   d.transactions.filter (fun t => ownedByOther u d t.portfolioId)⟩

/-- Store well-formedness guaranteed by the Prisma schema: portfolio ids are
primary keys and (portfolioId, symbol) is the unique key the addPosition
upsert relies on. -/
def wfDB (d : DB) : Prop :=
  (d.portfolios.map Portfolio.pid).Nodup ∧
  (d.positions.map (fun q => (q.portfolioId, q.symbol))).Nodup

/-- A store with one portfolio of user alice holding a ledger of one BUY of
50 shares; used as the concrete input of several statements. -/
def aliceDB : DB :=
  ⟨[⟨"p1", "alice", "Main", 1⟩], [],
   [⟨"p1", "alice", "AAPL", .BUY, 50, 150, 7500, 0, 1, none⟩]⟩

/-- The transaction record the controller stores for a SELL of 60 shares at
price 150 with no fees. -/
def sellTx60 : Txn := ⟨"p1", "alice", "AAPL", .SELL, 60, 150, 9000, 0, 2, none⟩

/-- A store with one portfolio of user alice holding an existing position of
50 shares at average price 150. -/
def posDB : DB :=
  ⟨[⟨"p1", "alice", "Main", 1⟩],
   [⟨"p1", "AAPL", 50, 150, 150, 7500, 7500, 0, 0, 0⟩], []⟩

/-- A completed answer record whose first answer matches no option of
question 1. -/
def ansA : List (String × AnswerVal) :=
  [("1", .str "Bogus"), ("2", .str "More than 10 years"),
   ("3", .str "Buy more while prices are low"), ("4", .str "More than 30%"),
   ("5", .num 4), ("6", .str "Somewhat important")]

/-- The same answer record with the first listed option selected for
question 1. -/
def ansB : List (String × AnswerVal) :=
  [("1", .str "Capital preservation"), ("2", .str "More than 10 years"),
   ("3", .str "Buy more while prices are low"), ("4", .str "More than 30%"),
   ("5", .num 4), ("6", .str "Somewhat important")]

/-- Two positions with market values 30 and 70. -/
def demoPositions : List Position :=
  [⟨"p1", "AAPL", 1, 30, 30, 30, 30, 0, 0, 0⟩,
   ⟨"p1", "MSFT", 1, 70, 70, 70, 70, 0, 0, 0⟩]

/-- The portfolio value series of the specification scenario. -/
def demoSeries : List ℚ := [100000, 102000, 99000, 105000]

/-- A transaction request with negative shares. -/
def badReq : TxnReq := ⟨"AAPL", .BUY, -1, 10, none, none⟩

/-- The alice store extended with a portfolio of user bob: it presents the
same alice-owned rows as aliceDB. -/
def bobDB : DB :=
  ⟨[⟨"p1", "alice", "Main", 1⟩, ⟨"p2", "bob", "Other", 5⟩], [],
   [⟨"p1", "alice", "AAPL", .BUY, 50, 150, 7500, 0, 1, none⟩]⟩

/-- Membership is preserved by descending insertion. -/
theorem mem_insertDescBy {α κ : Type} [LinearOrder κ] (key : α → κ) (a x : α) :
    ∀ l : List α, x ∈ insertDescBy key a l ↔ x = a ∨ x ∈ l
  | [] => by simp [insertDescBy]
  | b :: bs => by
    by_cases h : key b < key a
    · simp [insertDescBy, h]
    · simp only [insertDescBy, if_neg h, List.mem_cons, mem_insertDescBy key a x bs]
      tauto

/-- Membership is preserved by the descending sort. -/
theorem mem_sortDescBy {α κ : Type} [LinearOrder κ] (key : α → κ) (x : α) :
    ∀ l : List α, x ∈ sortDescBy key l ↔ x ∈ l
  | [] => by simp [sortDescBy]
  | b :: bs => by
    have ih := mem_sortDescBy key x bs
    simp only [sortDescBy, List.foldr_cons] at ih ⊢
    rw [mem_insertDescBy, ih, List.mem_cons]

/-- Finding under a conjunction of predicates is finding in the filtered list. -/
theorem find?_and_filter {α : Type} (p q : α → Bool) :
    ∀ l : List α, l.find? (fun a => p a && q a) = (l.filter q).find? p
  | [] => rfl
  | a :: l => by
    by_cases hq : q a
    · by_cases hp : p a <;>
        simp [List.find?_cons, List.filter_cons, hp, hq, find?_and_filter p q l]
    · simp [List.find?_cons, List.filter_cons, Bool.eq_false_iff.mpr hq,
        find?_and_filter p q l]

/-- Rows failing r never match p, so finding p skips them. -/
theorem find?_eq_find?_filter {α : Type} (p r : α → Bool) :
    ∀ l : List α, (∀ a ∈ l, p a = true → r a = true) →
      l.find? p = (l.filter r).find? p
  | [], _ => rfl
  | a :: l, h => by
    have ht := fun a ha => h a (List.mem_cons_of_mem _ ha)
    by_cases hp : p a
    · have hr : r a = true := h a (List.mem_cons_self a l) hp
      simp [List.find?_cons, List.filter_cons, hp, hr]
    · by_cases hr : r a <;>
        simp [List.find?_cons, List.filter_cons, hp, hr,
          find?_eq_find?_filter p r l ht]

/-- Filtering by r keeps every row matching p, so a subsequent filter by p
ignores r. -/
theorem filter_filter_of_imp {α : Type} (p r : α → Bool) :
    ∀ l : List α, (∀ a ∈ l, p a = true → r a = true) →
      (l.filter r).filter p = l.filter p
  | [], _ => rfl
  | a :: l, h => by
    have ht := fun a ha => h a (List.mem_cons_of_mem _ ha)
    by_cases hp : p a
    · have hr : r a = true := h a (List.mem_cons_self a l) hp
      simp [List.filter_cons, hp, hr, filter_filter_of_imp p r l ht]
    · by_cases hr : r a <;>
        simp [List.filter_cons, hp, hr, filter_filter_of_imp p r l ht]

/-- Mapping a function that fixes every row matched by p and never changes
p-membership commutes away under a filter by p. -/
theorem filter_map_invariant {α : Type} (p : α → Bool) (f : α → α)
    (hpres : ∀ a, p (f a) = p a) (hfix : ∀ a, p a = true → f a = a) :
    ∀ l : List α, (l.map f).filter p = l.filter p
  | [] => rfl
  | a :: l => by
    by_cases hp : p a
    · simp [List.filter_cons, hpres a, hp, hfix a hp,
        filter_map_invariant p f hpres hfix l]
    · simp [List.filter_cons, hpres a, hp,
        filter_map_invariant p f hpres hfix l]

/-- With distinct keys, find? by key returns the known row with that key. -/
theorem nodup_key_find? {α : Type} (key : α → String) (k : String) :
    ∀ l : List α, (l.map key).Nodup → ∀ x ∈ l, key x = k →
      l.find? (fun a => key a == k) = some x
  | [], _, x, hx, _ => absurd hx (List.not_mem_nil x)
  | a :: l, hnd, x, hx, hk => by
    rcases List.mem_cons.mp hx with h | h
    · subst h
      simp [List.find?_cons, hk]
    · have hka : key a ≠ k := by
        intro hak
        have : key x ∈ l.map key := List.mem_map_of_mem key h
        rw [hk, ← hak] at this
        exact (List.nodup_cons.mp (by simpa using hnd)).1 this
      rw [List.find?_cons_of_neg _ (by simpa using hka)]
      exact nodup_key_find? key k l (List.nodup_cons.mp (by simpa using hnd)).2 x h hk

/-- C1: counterexample.  A SELL of 10 shares at price 5 with fees 2 is stored
with total 52 = shares * price + fees, not shares * price - fees = 48: the
controller computes the same total for both transaction types, so fees do not
reduce sale proceeds. -/
theorem C1_sell_fee_counterexample :
    (addTransactionOp "alice" "p1" "AAPL" .SELL 10 5 2 none 7 aliceDB).2 =
      .ok (.txnData ⟨"p1", "alice", "AAPL", .SELL, 10, 5, 52, 2, 7, none⟩) ∧
    ¬ ((52 : ℚ) = 10 * 5 - 2) := by
  constructor
  · with_unfolding_all rfl
  · norm_num

/-- C1 amended: every transaction the controller accepts, BUY or SELL alike,
is stored with total = shares * price + fees. -/
theorem C1_total_formula (u id symbol : String) (ty : TxnType)
    (shares price fees : ℚ) (notes : Option String) (now : Nat) (d : DB)
    (t : Txn)
    (h : (addTransactionOp u id symbol ty shares price fees notes now d).2 =
      .ok (.txnData t)) :
    t.total = shares * price + fees := by
  unfold addTransactionOp at h
  cases hf : d.portfolios.find? (fun p => p.pid == id && p.userId == u) with
  | none => rw [hf] at h; exact absurd h (by simp)
  | some p =>
    rw [hf] at h
    simp only [Except.ok.injEq, RespData.txnData.injEq] at h
    rw [← h]
    rfl

/-- C1 amended, witness at the SELL of the counterexample. -/
theorem C1_total_formula_witness :
    (⟨"p1", "alice", "AAPL", .SELL, 10, 5, 52, 2, 7, none⟩ : Txn).total =
      10 * 5 + 2 :=
  C1_total_formula "alice" "p1" "AAPL" .SELL 10 5 2 none 7 aliceDB _
    (by with_unfolding_all rfl)

/-- C2: counterexample.  With 50 shares held for (p1, AAPL), a SELL of 60
shares does not fail: the controller performs no sufficiency check, the call
succeeds and the transaction list is modified by the appended SELL. -/
theorem C2_oversell_counterexample :
    heldFor aliceDB "p1" "AAPL" = .ok (50, 7500, 150) ∧
    (50 : ℚ) < 60 ∧
    (addTransactionOp "alice" "p1" "AAPL" .SELL 60 150 0 none 2 aliceDB).2 =
      .ok (.txnData sellTx60) ∧
    (addTransactionOp "alice" "p1" "AAPL" .SELL 60 150 0 none 2
        aliceDB).1.transactions = aliceDB.transactions ++ [sellTx60] ∧
    (addTransactionOp "alice" "p1" "AAPL" .SELL 60 150 0 none 2
        aliceDB).1.transactions ≠ aliceDB.transactions := by
  refine ⟨by with_unfolding_all rfl, by norm_num, by with_unfolding_all rfl,
    by with_unfolding_all rfl, ?_⟩
  rw [show (addTransactionOp "alice" "p1" "AAPL" .SELL 60 150 0 none 2
      aliceDB).1.transactions = aliceDB.transactions ++ [sellTx60] from by
    with_unfolding_all rfl]
  simp

/-- C2 amended: for any store in which the portfolio belongs to the user, a
SELL is accepted and appended to the transaction list regardless of the
shares held: no InsufficientSharesError exists in the implementation. -/
theorem C2_sell_never_checked (u id symbol : String) (shares price fees : ℚ)
    (notes : Option String) (now : Nat) (d : DB) (p : Portfolio)
    (hp : d.portfolios.find? (fun p => p.pid == id && p.userId == u) = some p) :
    (addTransactionOp u id symbol .SELL shares price fees notes now d).2 =
      .ok (.txnData (mkTxn u id symbol .SELL shares price fees notes now)) ∧
    (addTransactionOp u id symbol .SELL shares price fees notes now
        d).1.transactions =
      d.transactions ++ [mkTxn u id symbol .SELL shares price fees notes now] := by
  unfold addTransactionOp
  rw [hp]
  exact ⟨rfl, rfl⟩

/-- C2 amended, witness: the 60-share SELL against 50 held shares. -/
theorem C2_sell_never_checked_witness :
    (addTransactionOp "alice" "p1" "AAPL" .SELL 60 150 0 none 2 aliceDB).2 =
      .ok (.txnData (mkTxn "alice" "p1" "AAPL" .SELL 60 150 0 none 2)) ∧
    (addTransactionOp "alice" "p1" "AAPL" .SELL 60 150 0 none 2
        aliceDB).1.transactions =
      aliceDB.transactions ++ [mkTxn "alice" "p1" "AAPL" .SELL 60 150 0 none 2] :=
  C2_sell_never_checked "alice" "p1" "AAPL" 60 150 0 none 2 aliceDB
    ⟨"p1", "alice", "Main", 1⟩ (by with_unfolding_all rfl)

/-- C3: evaluation of the code at the failing input.  Adding 50 shares at
price 160 to an existing position of 50 shares at average price 150 leaves the
stored position with averagePrice 0, the placeholder of the upsert update
branch, while the blended cost-basis average of the claim is 155. -/
theorem C3_placeholder_average_price :
    (addPositionOp "alice" "p1" "AAPL" 50 160 posDB).1.positions =
      [⟨"p1", "AAPL", 100, 0, 150, 7500, 7500, 0, 0, 0⟩] ∧
    ((50 * 150 + 50 * 160 : ℚ) / (50 + 50)) = 155 ∧
    ((0 : ℚ) ≠ 155) := by
  refine ⟨by with_unfolding_all rfl, by norm_num, by norm_num⟩

/-- C9: a call of addTransaction never touches the position rows or the
portfolio rows, and a successful call appends exactly the one created
transaction record. -/
theorem C9_transaction_frame (u id symbol : String) (ty : TxnType)
    (shares price fees : ℚ) (notes : Option String) (now : Nat) (d : DB) :
    (addTransactionOp u id symbol ty shares price fees notes now d).1.positions =
      d.positions ∧
    (addTransactionOp u id symbol ty shares price fees notes now d).1.portfolios =
      d.portfolios ∧
    ∀ t, (addTransactionOp u id symbol ty shares price fees notes now d).2 =
        .ok (.txnData t) →
      (addTransactionOp u id symbol ty shares price fees notes now
          d).1.transactions = d.transactions ++ [t] := by
  unfold addTransactionOp
  cases hf : d.portfolios.find? (fun p => p.pid == id && p.userId == u) with
  | none => exact ⟨rfl, rfl, fun t ht => absurd ht (by simp)⟩
  | some p =>
    refine ⟨rfl, rfl, fun t ht => ?_⟩
    simp only [Except.ok.injEq, RespData.txnData.injEq] at ht
    rw [← ht]

/-- C9, witness at the concrete SELL of the C1 scenario. -/
theorem C9_transaction_frame_witness :
    (addTransactionOp "alice" "p1" "AAPL" .SELL 10 5 2 none 7
        aliceDB).1.transactions =
      aliceDB.transactions ++
        [⟨"p1", "alice", "AAPL", .SELL, 10, 5, 52, 2, 7, none⟩] :=
  (C9_transaction_frame "alice" "p1" "AAPL" .SELL 10 5 2 none 7 aliceDB).2.2 _
    (by with_unfolding_all rfl)

/-- C5: a transaction request with non-positive shares or price is rejected
before the controller runs, leaving the store untouched, and every accepted
request had positive shares, positive price and non-negative fees. -/
theorem C5_validation_gate (u : String) (r : TxnReq) (now : Nat) (id : String)
    (d : DB) :
    ((r.shares ≤ 0 ∨ r.price ≤ 0) →
      (postTransactionRoute u r now id d).2 = .error "InvalidTransactionError" ∧
      (postTransactionRoute u r now id d).1 = d) ∧
    (∀ resp, (postTransactionRoute u r now id d).2 = .ok resp →
      0 < r.shares ∧ 0 < r.price ∧ 0 ≤ r.fees.getD 0) := by
  constructor
  · intro h
    have hv : txnValid r = false := by
      rcases h with h | h
      · have hs : ¬ ((1 : ℚ) / 10000 ≤ r.shares) := by intro hle; linarith
        simp only [txnValid, decide_eq_false hs, Bool.false_and, Bool.and_false]
      · have hp : ¬ ((1 : ℚ) / 100 ≤ r.price) := by intro hle; linarith
        simp only [txnValid, decide_eq_false hp, Bool.false_and, Bool.and_false]
    simp [postTransactionRoute, hv]
  · intro resp hok
    by_cases hv : txnValid r
    · simp only [txnValid, Bool.and_eq_true, decide_eq_true_eq] at hv
      refine ⟨by linarith [hv.1.1.2], by linarith [hv.1.2], ?_⟩
      cases hf : r.fees with
      | none => simp
      | some f =>
        have := hv.2
        rw [hf] at this
        simpa using this
    · rw [postTransactionRoute, if_neg hv] at hok
      exact absurd hok (by simp)

/-- C5, witness: the request with shares -1 is rejected and the store is
unchanged. -/
theorem C5_validation_gate_witness :
    (postTransactionRoute "alice" badReq 1 "p1" aliceDB).2 =
      .error "InvalidTransactionError" ∧
    (postTransactionRoute "alice" badReq 1 "p1" aliceDB).1 = aliceDB :=
  (C5_validation_gate "alice" badReq 1 "p1" aliceDB).1
    (Or.inl (by norm_num [badReq]))

/-- FIFO consumption preserves positive lot shares and non-negative costs. -/
theorem consumeLots_good : ∀ (need : ℚ) (lots lots2 : List Lot),
    consumeLots need lots = some lots2 → GoodLots lots → GoodLots lots2
  | need, [], lots2, h, _ => by
    unfold consumeLots at h
    by_cases hn : need ≤ 0
    · rw [if_pos hn] at h
      cases h
      exact fun l hl => absurd hl (List.not_mem_nil l)
    · rw [if_neg hn] at h
      cases h
  | need, l :: ls, lots2, h, hg => by
    unfold consumeLots at h
    by_cases hn : need ≤ 0
    · rw [if_pos hn] at h
      cases h
      exact hg
    · rw [if_neg hn] at h
      by_cases hlt : need < l.shares
      · rw [if_pos hlt] at h
        cases h
        intro x hx
        rcases List.mem_cons.mp hx with hx | hx
        · subst hx
          exact ⟨by simpa using sub_pos.mpr hlt,
            (hg l (List.mem_cons_self l ls)).2⟩
        · exact hg x (List.mem_cons_of_mem l hx)
      · rw [if_neg hlt] at h
        exact consumeLots_good (need - l.shares) ls lots2 h
          (fun x hx => hg x (List.mem_cons_of_mem l hx))

/-- Replay of validated transactions preserves the lot invariant. -/
theorem replayLedger_good : ∀ (ts : List LedgerTxn) (lots lots2 : List Lot),
    (∀ t ∈ ts, 0 < t.shares ∧ 0 < t.price ∧ 0 ≤ t.fees) →
    replayLedger lots ts = .ok lots2 → GoodLots lots → GoodLots lots2
  | [], lots, lots2, _, h, hg => by
    unfold replayLedger at h
    cases h
    exact hg
  | t :: ts, lots, lots2, hval, h, hg => by
    have hvt := hval t (List.mem_cons_self t ts)
    have hvts := fun x hx => hval x (List.mem_cons_of_mem t hx)
    unfold replayLedger at h
    cases hty : t.ttype with
    | BUY =>
      rw [hty] at h
      refine replayLedger_good ts _ lots2 hvts h ?_
      intro x hx
      rcases List.mem_append.mp hx with hx | hx
      · exact hg x hx
      · rcases List.mem_singleton.mp hx with rfl
        exact ⟨hvt.1,
          add_nonneg (le_of_lt hvt.2.1) (div_nonneg hvt.2.2 (le_of_lt hvt.1))⟩
    | SELL =>
      rw [hty] at h
      cases hc : consumeLots t.shares lots with
      | none => rw [hc] at h; cases h
      | some lots3 =>
        rw [hc] at h
        exact replayLedger_good ts lots3 lots2 hvts h
          (consumeLots_good t.shares lots lots3 hc hg)

/-- Sums over good lots are non-negative, and zero shares forces zero cost. -/
theorem goodLots_sums : ∀ lots : List Lot, GoodLots lots →
    0 ≤ lotShares lots ∧ 0 ≤ lotCost lots ∧
      (lotShares lots = 0 → lotCost lots = 0)
  | [], _ => by simp [lotShares, lotCost]
  | l :: ls, hg => by
    have hl := hg l (List.mem_cons_self l ls)
    have ih := goodLots_sums ls (fun x hx => hg x (List.mem_cons_of_mem l hx))
    have hsh : lotShares (l :: ls) = l.shares + lotShares ls := by
      simp [lotShares]
    have hco : lotCost (l :: ls) = l.shares * l.unitCost + lotCost ls := by
      simp [lotCost]
    refine ⟨by rw [hsh]; exact add_nonneg (le_of_lt hl.1) ih.1, ?_, ?_⟩
    · rw [hco]
      exact add_nonneg (mul_nonneg (le_of_lt hl.1) hl.2) ih.2.1
    · intro hz
      rw [hsh] at hz
      have : (0 : ℚ) < l.shares + lotShares ls :=
        add_pos_of_pos_of_nonneg hl.1 ih.1
      exact absurd hz (ne_of_gt this)

/-- C4: for every validated transaction sequence the ledger query reports
non-negative shares and cost basis, and zero shares forces zero cost basis. -/
theorem C4_shares_and_cost_invariant (ts : List LedgerTxn)
    (hval : ∀ t ∈ ts, 0 < t.shares ∧ 0 < t.price ∧ 0 ≤ t.fees)
    (sh cb ap : ℚ) (h : sharesAndCost ts = .ok (sh, cb, ap)) :
    0 ≤ sh ∧ 0 ≤ cb ∧ (sh = 0 → cb = 0) := by
  unfold sharesAndCost at h
  cases hrep : replayLedger [] ts with
  | error e => rw [hrep] at h; exact absurd h (by simp [Except.map])
  | ok lots =>
    rw [hrep] at h
    simp only [Except.map, Except.ok.injEq, Prod.mk.injEq] at h
    have hg : GoodLots lots :=
      replayLedger_good ts [] lots hval hrep
        (fun l hl => absurd hl (List.not_mem_nil l))
    have hs := goodLots_sums lots hg
    rw [← h.1, ← h.2.1]
    exact hs

/-- C4, witness: the two-BUY scenario of the specification, yielding 100
shares at cost basis 15500. -/
theorem C4_shares_and_cost_invariant_witness :
    (0 : ℚ) ≤ 100 ∧ (0 : ℚ) ≤ 15500 ∧ ((100 : ℚ) = 0 → (15500 : ℚ) = 0) :=
  C4_shares_and_cost_invariant
    [⟨.BUY, 50, 150, 0⟩, ⟨.BUY, 50, 160, 0⟩]
    (by
      intro t ht
      rcases List.mem_cons.mp ht with rfl | ht
      · exact ⟨by norm_num, by norm_num, by norm_num⟩
      rcases List.mem_cons.mp ht with rfl | ht
      · exact ⟨by norm_num, by norm_num, by norm_num⟩
      · exact absurd ht (List.not_mem_nil t))
    100 15500 155 (by with_unfolding_all rfl)

/-- Distributing the division and scaling of the weight formula over a sum. -/
theorem sum_map_div_mul (T : ℚ) : ∀ l : List ℚ,
    (l.map (fun x => x / T * 100)).sum = l.sum / T * 100
  | [] => by simp
  | x :: l => by
    simp only [List.map_cons, List.sum_cons, sum_map_div_mul T l]
    rw [add_div, add_mul]

/-- C6: the aggregator weights sum to exactly 100 whenever the total value is
positive, and are all 0 when the total value is 0. -/
theorem C6_weights_sum (ps : List Position) :
    (0 < totalValueOf ps →
      ((assignWeights ps).map Position.weight).sum = 100) ∧
    (totalValueOf ps = 0 → ∀ q ∈ assignWeights ps, q.weight = 0) := by
  constructor
  · intro hT
    have hne : totalValueOf ps ≠ 0 := ne_of_gt hT
    have h1 : (assignWeights ps).map Position.weight =
        ps.map (fun p => p.marketValue / totalValueOf ps * 100) := by
      unfold assignWeights
      rw [List.map_map]
      exact List.map_congr_left (fun p _ => by simp [hne])
    have h2 : ps.map (fun p => p.marketValue / totalValueOf ps * 100) =
        (ps.map Position.marketValue).map
          (fun x => x / totalValueOf ps * 100) := by
      rw [List.map_map]
      rfl
    rw [h1, h2, sum_map_div_mul]
    rw [show (ps.map Position.marketValue).sum = totalValueOf ps from rfl]
    rw [div_self hne]
    norm_num
  · intro hT q hq
    unfold assignWeights at hq
    rcases List.mem_map.mp hq with ⟨p, _, hpq⟩
    rw [← hpq]
    simp [hT]

/-- C6, witness: market values 30 and 70 give weights summing to 100. -/
theorem C6_weights_sum_witness :
    ((assignWeights demoPositions).map Position.weight).sum = 100 :=
  (C6_weights_sum demoPositions).1
    (by norm_num [totalValueOf, demoPositions])

/-- Folding min only lowers the start value. -/
theorem foldl_min_le_init (a : ℚ) : ∀ l : List ℚ, l.foldl min a ≤ a
  | [] => le_refl a
  | x :: l => le_trans (le_trans (foldl_min_le_init (min a x) l)
      (min_le_left a x)) (le_refl a)

/-- Folding min keeps the start value exactly when no element is below it. -/
theorem foldl_min_eq_init_iff (a : ℚ) : ∀ l : List ℚ,
    (l.foldl min a = a ↔ ∀ x ∈ l, a ≤ x)
  | [] => by simp
  | x :: l => by
    simp only [List.foldl_cons, List.mem_cons]
    constructor
    · intro h
      have h1 : (l.foldl min (min a x)) ≤ min a x := foldl_min_le_init _ l
      have hax : min a x = a :=
        le_antisymm (min_le_left a x) (le_trans (le_of_eq h.symm) h1)
      have hx : a ≤ x := min_eq_left_iff.mp hax
      rw [hax] at h
      intro y hy
      rcases hy with rfl | hy
      · exact hx
      · exact (foldl_min_eq_init_iff a l).mp h y hy
    · intro h
      rw [min_eq_left (h x (Or.inl rfl))]
      exact (foldl_min_eq_init_iff a l).mpr (fun y hy => h y (Or.inr hy))

/-- The running-maximum drawdown list is the declarative per-index list. -/
theorem drawdowns_eq_range : ∀ (s : List ℚ) (m : ℚ),
    drawdowns m s = (List.range s.length).map
      (fun t => s.getD t 0 / ((s.take (t + 1)).foldl max m) - 1)
  | [], m => by simp [drawdowns]
  | v :: vs, m => by
    rw [show (v :: vs).length = vs.length + 1 from rfl,
      List.range_succ_eq_map, List.map_cons, List.map_map]
    have hhead : (v :: vs).getD 0 0 / (((v :: vs).take 1).foldl max m) - 1 =
        v / max m v - 1 := by
      simp [List.take_succ_cons]
    have htail : (List.range vs.length).map
        ((fun t => (v :: vs).getD t 0 / (((v :: vs).take (t + 1)).foldl max m) - 1)
          ∘ Nat.succ) =
        (List.range vs.length).map
          (fun t => vs.getD t 0 / ((vs.take (t + 1)).foldl max (max m v)) - 1) := by
      refine List.map_congr_left (fun t _ => ?_)
      simp [List.take_succ_cons]
    rw [hhead, htail, show drawdowns m (v :: vs) =
      (v / max m v - 1) :: drawdowns (max m v) vs from rfl,
      drawdowns_eq_range vs (max m v)]

/-- All drawdowns from running maximum m are non-negative exactly when the
series is a non-decreasing chain starting at or above m. -/
theorem drawdowns_nonneg_iff_chain : ∀ (s : List ℚ) (m : ℚ), 0 ≤ m →
    (∀ v ∈ s, 0 < v) →
    ((∀ x ∈ drawdowns m s, 0 ≤ x) ↔ List.Chain (· ≤ ·) m s)
  | [], m, _, _ => by simp [drawdowns, List.Chain.nil]
  | v :: vs, m, hm, hpos => by
    have hv : 0 < v := hpos v (List.mem_cons_self v vs)
    have hmax : 0 < max m v := lt_max_of_lt_right hv
    have hfirst : (0 ≤ v / max m v - 1) ↔ m ≤ v := by
      rw [sub_nonneg, le_div_iff₀ hmax, one_mul, max_le_iff]
      simp
    rw [show drawdowns m (v :: vs) =
      (v / max m v - 1) :: drawdowns (max m v) vs from rfl]
    rw [List.forall_mem_cons, List.chain_cons]
    by_cases hmv : m ≤ v
    · rw [max_eq_right hmv] at hfirst ⊢
      exact and_congr hfirst
        (drawdowns_nonneg_iff_chain vs v (le_of_lt hv)
          (fun x hx => hpos x (List.mem_cons_of_mem v hx)))
    · constructor
      · intro h
        exact absurd (hfirst.mp h.1) hmv
      · intro h
        exact absurd h.1 hmv

/-- C7: for a positive value series, maxDrawdown is the minimum over t of
value_t over the running maximum minus 1, it is never positive, and it is 0
exactly when the series is monotonically non-decreasing. -/
theorem C7_max_drawdown (s : List ℚ) (hpos : ∀ v ∈ s, 0 < v) :
    maxDrawdown s = minDrawdownFormula s ∧
    maxDrawdown s ≤ 0 ∧
    (maxDrawdown s = 0 ↔ List.Chain' (· ≤ ·) s) := by
  refine ⟨?_, foldl_min_le_init 0 (drawdowns 0 s), ?_⟩
  · unfold maxDrawdown minDrawdownFormula drawdownAt
    rw [drawdowns_eq_range s 0]
  · unfold maxDrawdown
    rw [foldl_min_eq_init_iff]
    rw [drawdowns_nonneg_iff_chain s 0 (le_refl 0) hpos]
    cases s with
    | nil => simp [List.Chain']
    | cons v vs =>
      rw [List.chain_cons]
      have h0v : (0 : ℚ) ≤ v := le_of_lt (hpos v (List.mem_cons_self v vs))
      constructor
      · intro h
        exact h.2
      · intro h
        exact ⟨h0v, h⟩

/-- C7, witness: the specification scenario series, whose maxDrawdown is
99000 / 102000 - 1. -/
theorem C7_max_drawdown_witness :
    maxDrawdown demoSeries = minDrawdownFormula demoSeries ∧
    maxDrawdown demoSeries ≤ 0 ∧
    (maxDrawdown demoSeries = 0 ↔ List.Chain' (· ≤ ·) demoSeries) :=
  C7_max_drawdown demoSeries
    (by
      intro v hv
      rcases List.mem_cons.mp hv with rfl | hv
      · norm_num
      rcases List.mem_cons.mp hv with rfl | hv
      · norm_num
      rcases List.mem_cons.mp hv with rfl | hv
      · norm_num
      rcases List.mem_cons.mp hv with rfl | hv
      · norm_num
      · exact absurd hv (List.not_mem_nil v))

/-- An absent string is at JavaScript index -1. -/
theorem jsIndexOf_go_not_mem : ∀ (opts : List String) (s : String),
    s ∉ opts → jsIndexOf.go opts s = -1
  | [], _, _ => rfl
  | o :: os, s, h => by
    have ho : ¬ (o = s) := fun he => h (he ▸ List.mem_cons_self o os)
    have hos : s ∉ os := fun hm => h (List.mem_cons_of_mem o hm)
    unfold jsIndexOf.go
    rw [if_neg ho, jsIndexOf_go_not_mem os s hos]
    simp

/-- C10 amended: a recorded multiple-choice answer matching no option
contributes (-1 + 1) * weight = 0 to the total score, because the or-else
guard does not coerce the truthy -1; the first listed option contributes
weight, so the two are distinguishable whenever the weight is non-zero. -/
theorem C10_unmatched_scores_zero (q : RiskQuestion) (opts : List String)
    (ans : String) (hk : q.kind = .multiple_choice)
    (ho : q.options = some opts) (hna : ans ∉ opts) :
    (questionScore [(q.qid, AnswerVal.str ans)] q).1 = 0 ∧
    (∀ o os, opts = o :: os →
      (questionScore [(q.qid, AnswerVal.str o)] q).1 = q.weight) := by
  constructor
  · unfold questionScore
    rw [show List.lookup q.qid [(q.qid, AnswerVal.str ans)] =
      some (AnswerVal.str ans) from by simp [List.lookup]]
    rw [hk, ho]
    simp only [optionIndexOf, jsIndexOf, jsIndexOf_go_not_mem opts ans hna, jsOr0]
    norm_num
  · intro o os hoo
    unfold questionScore
    rw [show List.lookup q.qid [(q.qid, AnswerVal.str o)] =
      some (AnswerVal.str o) from by simp [List.lookup]]
    rw [hk, ho, hoo]
    simp only [optionIndexOf, jsIndexOf, jsOr0]
    rw [show jsIndexOf.go (o :: os) o = 0 from by unfold jsIndexOf.go; simp]
    norm_num

/-- C10 amended, witness: on question 1 the unmatched answer scores 0 and the
first option scores the weight 3. -/
theorem C10_unmatched_scores_zero_witness :
    (questionScore [("1", AnswerVal.str "Bogus")] rq1).1 = 0 ∧
    (questionScore [("1", AnswerVal.str "Capital preservation")] rq1).1 =
      rq1.weight :=
  ⟨(C10_unmatched_scores_zero rq1
      ["Capital preservation", "Income generation", "Growth",
       "Aggressive growth"] "Bogus" rfl rfl (by decide)).1,
   (C10_unmatched_scores_zero rq1
      ["Capital preservation", "Income generation", "Growth",
       "Aggressive growth"] "Bogus" rfl rfl (by decide)).2
     "Capital preservation"
     ["Income generation", "Growth", "Aggressive growth"] rfl⟩

/-- C10: counterexample.  The unmatched answer Bogus on question 1 scores 0,
not (0 + 1) * weight = 3, and the resulting risk profile does distinguish an
unmatched answer from the first option: moderate against aggressive on two
answer records differing only there. -/
theorem C10_counterexample :
    (questionScore ansA rq1).1 = 0 ∧
    ¬ ((questionScore ansA rq1).1 = (0 + 1) * rq1.weight) ∧
    calculateRiskProfile ansA = .moderate ∧
    calculateRiskProfile ansB = .aggressive ∧
    calculateRiskProfile ansA ≠ calculateRiskProfile ansB := by
  refine ⟨by with_unfolding_all rfl, ?_, by with_unfolding_all rfl,
    by with_unfolding_all rfl, ?_⟩
  · rw [show (questionScore ansA rq1).1 = 0 from by with_unfolding_all rfl]
    norm_num [rq1]
  · rw [show calculateRiskProfile ansA = .moderate from by
        with_unfolding_all rfl,
      show calculateRiskProfile ansB = .aggressive from by
        with_unfolding_all rfl]
    simp

/-- A portfolio row of user u witnesses ownership of its id. -/
theorem owns_of_mem {u : String} {d : DB} {p : Portfolio}
    (hp : p ∈ d.portfolios) (hu : p.userId = u) {k : String} (hk : p.pid = k) :
    ownsPortfolio u d k = true := by
  unfold ownsPortfolio
  rw [List.any_eq_true]
  exact ⟨p, hp, by simp [hu, hk]⟩

/-- Under unique portfolio ids, an id owned by u is owned by nobody else. -/
theorem not_ownedByOther_of_owns {u : String} {d : DB}
    (hnd : (d.portfolios.map Portfolio.pid).Nodup) {k : String}
    (ho : ownsPortfolio u d k = true) : ownedByOther u d k = false := by
  rw [Bool.eq_false_iff]
  intro hob
  unfold ownedByOther othersPortfolios at hob
  rw [List.any_eq_true] at hob
  rcases hob with ⟨r, hr, hrk⟩
  rcases List.mem_filter.mp hr with ⟨hrmem, hrne⟩
  unfold ownsPortfolio at ho
  rw [List.any_eq_true] at ho
  rcases ho with ⟨p, hpmem, hpk⟩
  rw [Bool.and_eq_true, beq_iff_eq, beq_iff_eq] at hpk
  rw [beq_iff_eq] at hrk
  have hpr : p = r := List.inj_on_of_nodup_map hnd hpmem hrmem (by rw [hpk.1, hrk])
  rw [← hpr, hpk.2] at hrne
  simp at hrne

/-- Rows keyed into a u-owned portfolio survive the userView filter, so a
filter by that key ignores the ownership filter. -/
theorem filter_key_view {α : Type} (keyf : α → String) {u : String} {d : DB}
    {p : Portfolio} (hp : p ∈ d.portfolios) (hu : p.userId = u) (l : List α) :
    l.filter (fun x => keyf x == p.pid) =
      (l.filter (fun x => ownsPortfolio u d (keyf x))).filter
        (fun x => keyf x == p.pid) := by
  rw [List.filter_filter]
  refine (List.filter_congr (fun x _ => ?_)).symm
  by_cases hk : keyf x == p.pid
  · rw [hk, owns_of_mem hp hu (beq_iff_eq.mp hk).symm]
    rfl
  · rw [Bool.eq_false_iff.mpr hk]
    simp

/-- The same, for a find?: rows keyed into a u-owned portfolio are found
identically in the full table and in the userView slice. -/
theorem find?_key_view {α : Type} (pred : α → Bool) (keyf : α → String)
    {u : String} {d : DB} {p : Portfolio} (hp : p ∈ d.portfolios)
    (hu : p.userId = u) (l : List α)
    (hkey : ∀ x, pred x = true → keyf x = p.pid) :
    l.find? pred =
      (l.filter (fun x => ownsPortfolio u d (keyf x))).find? pred := by
  refine find?_eq_find?_filter pred _ l (fun x _ hx => ?_)
  exact owns_of_mem hp hu (hkey x hx).symm

/-- find? respects pointwise equal predicates. -/
theorem find?_congr_pred {α : Type} (p q : α → Bool) :
    ∀ l : List α, (∀ a ∈ l, p a = q a) → l.find? p = l.find? q
  | [], _ => rfl
  | a :: l, h => by
    have ha := h a (List.mem_cons_self a l)
    by_cases hp : p a
    · rw [List.find?_cons_of_pos _ hp, List.find?_cons_of_pos _ (ha ▸ hp)]
    · rw [List.find?_cons_of_neg _ hp,
        List.find?_cons_of_neg _ (by rw [← ha]; exact hp)]
      exact find?_congr_pred p q l (fun x hx => h x (List.mem_cons_of_mem a hx))

/-- With a distinct compound key, find? by both key parts returns the known
row. -/
theorem nodup_key2_find? {α : Type} (k1 k2 : α → String) (i s : String) :
    ∀ l : List α, (l.map (fun a => (k1 a, k2 a))).Nodup → ∀ x ∈ l,
      k1 x = i → k2 x = s →
      l.find? (fun a => k1 a == i && k2 a == s) = some x
  | [], _, x, hx, _, _ => absurd hx (List.not_mem_nil x)
  | a :: l, hnd, x, hx, h1, h2 => by
    rw [List.map_cons] at hnd
    have hnd2 := List.nodup_cons.mp hnd
    rcases List.mem_cons.mp hx with h | h
    · subst h
      rw [List.find?_cons_of_pos _ (by simp [h1, h2])]
    · by_cases ha : k1 a = i ∧ k2 a = s
      · exfalso
        have hm : (k1 x, k2 x) ∈ l.map (fun a => (k1 a, k2 a)) :=
          List.mem_map_of_mem _ h
        rw [h1, h2, ← ha.1, ← ha.2] at hm
        exact hnd2.1 hm
      · rw [List.find?_cons_of_neg _ (by
          intro hc
          rw [Bool.and_eq_true, beq_iff_eq, beq_iff_eq] at hc
          exact ha hc)]
        exact nodup_key2_find? k1 k2 i s l hnd2.2 x h h1 h2

/-- Componentwise description of equality of the views of the other users. -/
theorem othersView_eq {u : String} {d2 d : DB}
    (hp : othersPortfolios u d2 = othersPortfolios u d)
    (hq : d2.positions.filter (fun q => ownedByOther u d2 q.portfolioId) =
      d.positions.filter (fun q => ownedByOther u d q.portfolioId))
    (ht : d2.transactions.filter (fun t => ownedByOther u d2 t.portfolioId) =
      d.transactions.filter (fun t => ownedByOther u d t.portfolioId)) :
    othersView u d2 = othersView u d := by
  unfold othersView
  rw [hp, hq, ht]

/-- Once the other-user portfolios agree, the derived ownership test agrees. -/
theorem ownedByOther_congr {u : String} {d2 d : DB}
    (hp : othersPortfolios u d2 = othersPortfolios u d) (k : String) :
    ownedByOther u d2 k = ownedByOther u d k := by
  unfold ownedByOther
  rw [hp]

/-- The response of getPortfolios is a function of the caller-owned rows. -/
theorem getPortfolios_resp (u : String) (d1 d2 : DB)
    (hagree : userView u d1 = userView u d2) :
    (getPortfoliosOp u d1).2 = (getPortfoliosOp u d2).2 := by
  have hP : d1.portfolios.filter (fun p => p.userId == u) =
      d2.portfolios.filter (fun p => p.userId == u) :=
    congrArg DB.portfolios hagree
  have hQ : d1.positions.filter (fun q => ownsPortfolio u d1 q.portfolioId) =
      d2.positions.filter (fun q => ownsPortfolio u d2 q.portfolioId) :=
    congrArg DB.positions hagree
  have hT : d1.transactions.filter (fun t => ownsPortfolio u d1 t.portfolioId) =
      d2.transactions.filter (fun t => ownsPortfolio u d2 t.portfolioId) :=
    congrArg DB.transactions hagree
  simp only [getPortfoliosOp]
  rw [hP]
  refine congrArg Except.ok (congrArg RespData.portfolioRows
    (List.map_congr_left (fun p hp => ?_)))
  have hp2 : p ∈ d2.portfolios.filter (fun p => p.userId == u) :=
    (mem_sortDescBy Portfolio.createdAt p _).mp hp
  have hp1 : p ∈ d1.portfolios.filter (fun p => p.userId == u) := by
    rw [hP]; exact hp2
  have hm2 := List.mem_filter.mp hp2
  have hm1 := List.mem_filter.mp hp1
  have hu : p.userId = u := beq_iff_eq.mp hm2.2
  have hA : d1.positions.filter (fun q => q.portfolioId == p.pid) =
      d2.positions.filter (fun q => q.portfolioId == p.pid) := by
    rw [filter_key_view Position.portfolioId hm1.1 hu d1.positions, hQ,
      ← filter_key_view Position.portfolioId hm2.1 hu d2.positions]
  have hB : d1.transactions.filter (fun t => t.portfolioId == p.pid) =
      d2.transactions.filter (fun t => t.portfolioId == p.pid) := by
    rw [filter_key_view Txn.portfolioId hm1.1 hu d1.transactions, hT,
      ← filter_key_view Txn.portfolioId hm2.1 hu d2.transactions]
  rw [hA, hB]

/-- The response of getPortfolio is a function of the caller-owned rows. -/
theorem getPortfolio_resp (u id : String) (d1 d2 : DB)
    (hagree : userView u d1 = userView u d2) :
    (getPortfolioOp u id d1).2 = (getPortfolioOp u id d2).2 := by
  have hP : d1.portfolios.filter (fun p => p.userId == u) =
      d2.portfolios.filter (fun p => p.userId == u) :=
    congrArg DB.portfolios hagree
  have hQ : d1.positions.filter (fun q => ownsPortfolio u d1 q.portfolioId) =
      d2.positions.filter (fun q => ownsPortfolio u d2 q.portfolioId) :=
    congrArg DB.positions hagree
  have hT : d1.transactions.filter (fun t => ownsPortfolio u d1 t.portfolioId) =
      d2.transactions.filter (fun t => ownsPortfolio u d2 t.portfolioId) :=
    congrArg DB.transactions hagree
  have hfind : d1.portfolios.find? (fun p => p.pid == id && p.userId == u) =
      d2.portfolios.find? (fun p => p.pid == id && p.userId == u) := by
    rw [find?_and_filter, find?_and_filter, hP]
  unfold getPortfolioOp
  rw [hfind]
  cases hf : d2.portfolios.find? (fun p => p.pid == id && p.userId == u) with
  | none => rfl
  | some p =>
    dsimp only
    have hpred := List.find?_some hf
    rw [Bool.and_eq_true, beq_iff_eq, beq_iff_eq] at hpred
    have hm2 : p ∈ d2.portfolios := List.mem_of_find?_eq_some hf
    have hm1 : p ∈ d1.portfolios := by
      refine List.mem_of_find?_eq_some (p := fun p => p.pid == id && p.userId == u) ?_
      rw [hfind]; exact hf
    have hA : d1.positions.filter (fun q => q.portfolioId == p.pid) =
        d2.positions.filter (fun q => q.portfolioId == p.pid) := by
      rw [filter_key_view Position.portfolioId hm1 hpred.2 d1.positions, hQ,
        ← filter_key_view Position.portfolioId hm2 hpred.2 d2.positions]
    have hB : d1.transactions.filter (fun t => t.portfolioId == p.pid) =
        d2.transactions.filter (fun t => t.portfolioId == p.pid) := by
      rw [filter_key_view Txn.portfolioId hm1 hpred.2 d1.transactions, hT,
        ← filter_key_view Txn.portfolioId hm2 hpred.2 d2.transactions]
    rw [hA, hB]

/-- The response of getPositions is a function of the caller-owned rows. -/
theorem getPositions_resp (u id : String) (d1 d2 : DB)
    (hagree : userView u d1 = userView u d2) :
    (getPositionsOp u id d1).2 = (getPositionsOp u id d2).2 := by
  have hQ : d1.positions.filter (fun q => ownsPortfolio u d1 q.portfolioId) =
      d2.positions.filter (fun q => ownsPortfolio u d2 q.portfolioId) :=
    congrArg DB.positions hagree
  have hX : d1.positions.filter
      (fun q => q.portfolioId == id && ownsPortfolio u d1 q.portfolioId) =
      d2.positions.filter
        (fun q => q.portfolioId == id && ownsPortfolio u d2 q.portfolioId) := by
    rw [← List.filter_filter, ← List.filter_filter, hQ]
  simp only [getPositionsOp]
  rw [hX]

/-- The response of getTransactions is a function of the caller-owned rows. -/
theorem getTransactions_resp (u id : String) (limit offset : Nat) (d1 d2 : DB)
    (hagree : userView u d1 = userView u d2) :
    (getTransactionsOp u id limit offset d1).2 =
      (getTransactionsOp u id limit offset d2).2 := by
  have hT : d1.transactions.filter (fun t => ownsPortfolio u d1 t.portfolioId) =
      d2.transactions.filter (fun t => ownsPortfolio u d2 t.portfolioId) :=
    congrArg DB.transactions hagree
  have hX : d1.transactions.filter
      (fun t => t.portfolioId == id && ownsPortfolio u d1 t.portfolioId) =
      d2.transactions.filter
        (fun t => t.portfolioId == id && ownsPortfolio u d2 t.portfolioId) := by
    rw [← List.filter_filter, ← List.filter_filter, hT]
  simp only [getTransactionsOp]
  rw [hX]

/-- The response of createPortfolio depends only on the request. -/
theorem createPortfolio_resp (u name freshId : String) (now : Nat)
    (d1 d2 : DB) :
    (createPortfolioOp u name freshId now d1).2 =
      (createPortfolioOp u name freshId now d2).2 := rfl

/-- The response of updatePortfolio is a function of the caller-owned rows. -/
theorem updatePortfolio_resp (u id name : String) (d1 d2 : DB)
    (h1 : wfDB d1) (h2 : wfDB d2)
    (hagree : userView u d1 = userView u d2) :
    (updatePortfolioOp u id name d1).2 = (updatePortfolioOp u id name d2).2 := by
  have hP : d1.portfolios.filter (fun p => p.userId == u) =
      d2.portfolios.filter (fun p => p.userId == u) :=
    congrArg DB.portfolios hagree
  have hfl : d1.portfolios.filter (fun p => p.pid == id && p.userId == u) =
      d2.portfolios.filter (fun p => p.pid == id && p.userId == u) := by
    rw [← List.filter_filter, ← List.filter_filter, hP]
  simp only [updatePortfolioOp]
  rw [hfl]
  by_cases hc :
      (d2.portfolios.filter (fun p => p.pid == id && p.userId == u)).length = 0
  · rw [if_pos hc, if_pos hc]
  · rw [if_neg hc, if_neg hc]
    have hx : ∃ x, x ∈ d2.portfolios.filter (fun p => p.pid == id && p.userId == u) :=
      List.exists_mem_of_length_pos (Nat.pos_of_ne_zero hc)
    rcases hx with ⟨x, hx2⟩
    have hx1 : x ∈ d1.portfolios.filter (fun p => p.pid == id && p.userId == u) := by
      rw [hfl]; exact hx2
    have hm2 := List.mem_filter.mp hx2
    have hm1 := List.mem_filter.mp hx1
    have hxk := hm2.2
    rw [Bool.and_eq_true, beq_iff_eq, beq_iff_eq] at hxk
    have hres : ∀ d : DB, wfDB d → x ∈ d.portfolios →
        (d.portfolios.map (fun p =>
          if p.pid == id && p.userId == u then
            (⟨p.pid, p.userId, name, p.createdAt⟩ : Portfolio) else p)).find?
          (fun p => p.pid == id) =
        some (⟨x.pid, x.userId, name, x.createdAt⟩ : Portfolio) := by
      intro d hwf hm
      rw [List.find?_map]
      have hpid : ∀ p : Portfolio,
          ((fun p : Portfolio => p.pid == id) ∘ (fun p =>
            if p.pid == id && p.userId == u then
              (⟨p.pid, p.userId, name, p.createdAt⟩ : Portfolio) else p)) p =
          (p.pid == id) := by
        intro p
        by_cases hp : p.pid == id && p.userId == u <;> simp [Function.comp, hp]
      rw [find?_congr_pred _ _ _ (fun a _ => hpid a)]
      rw [show (fun p : Portfolio => p.pid == id) =
        (fun p : Portfolio => Portfolio.pid p == id) from rfl]
      rw [nodup_key_find? Portfolio.pid id d.portfolios hwf.1 x hm hxk.1]
      simp [hxk.1, hxk.2]
    rw [hres d1 h1 hm1.1, hres d2 h2 hm2.1]

/-- The response of deletePortfolio is a function of the caller-owned rows. -/
theorem deletePortfolio_resp (u id : String) (d1 d2 : DB)
    (hagree : userView u d1 = userView u d2) :
    (deletePortfolioOp u id d1).2 = (deletePortfolioOp u id d2).2 := by
  have hP : d1.portfolios.filter (fun p => p.userId == u) =
      d2.portfolios.filter (fun p => p.userId == u) :=
    congrArg DB.portfolios hagree
  have hfl : d1.portfolios.filter (fun p => p.pid == id && p.userId == u) =
      d2.portfolios.filter (fun p => p.pid == id && p.userId == u) := by
    rw [← List.filter_filter, ← List.filter_filter, hP]
  simp only [deletePortfolioOp]
  rw [hfl]
  by_cases hc :
      (d2.portfolios.filter (fun p => p.pid == id && p.userId == u)).length = 0
  · rw [if_pos hc, if_pos hc]
  · rw [if_neg hc, if_neg hc]

/-- The addPosition upsert update branch preserves the compound key. -/
theorem upsertUpdate_key (id symbol : String) (shares : ℚ) (q : Position) :
    ((upsertUpdate shares q).portfolioId == id &&
      (upsertUpdate shares q).symbol == symbol) =
    (q.portfolioId == id && q.symbol == symbol) := rfl

/-- The response of addPosition is a function of the caller-owned rows. -/
theorem addPosition_resp (u id symbol : String) (shares averagePrice : ℚ)
    (d1 d2 : DB) (hagree : userView u d1 = userView u d2) :
    (addPositionOp u id symbol shares averagePrice d1).2 =
      (addPositionOp u id symbol shares averagePrice d2).2 := by
  have hP : d1.portfolios.filter (fun p => p.userId == u) =
      d2.portfolios.filter (fun p => p.userId == u) :=
    congrArg DB.portfolios hagree
  have hQ : d1.positions.filter (fun q => ownsPortfolio u d1 q.portfolioId) =
      d2.positions.filter (fun q => ownsPortfolio u d2 q.portfolioId) :=
    congrArg DB.positions hagree
  have hfind : d1.portfolios.find? (fun p => p.pid == id && p.userId == u) =
      d2.portfolios.find? (fun p => p.pid == id && p.userId == u) := by
    rw [find?_and_filter, find?_and_filter, hP]
  unfold addPositionOp
  rw [hfind]
  cases hf : d2.portfolios.find? (fun p => p.pid == id && p.userId == u) with
  | none => rfl
  | some p0 =>
    dsimp only
    have hpred := List.find?_some hf
    rw [Bool.and_eq_true, beq_iff_eq, beq_iff_eq] at hpred
    have hm2 : p0 ∈ d2.portfolios := List.mem_of_find?_eq_some hf
    have hm1 : p0 ∈ d1.portfolios := by
      refine List.mem_of_find?_eq_some (p := fun p => p.pid == id && p.userId == u) ?_
      rw [hfind]; exact hf
    have hkey : ∀ x : Position,
        (x.portfolioId == id && x.symbol == symbol) = true →
          x.portfolioId = p0.pid := by
      intro x hx
      rw [Bool.and_eq_true, beq_iff_eq, beq_iff_eq] at hx
      rw [hx.1, hpred.1]
    have hkf : d1.positions.find?
        (fun q => q.portfolioId == id && q.symbol == symbol) =
        d2.positions.find? (fun q => q.portfolioId == id && q.symbol == symbol) := by
      rw [find?_key_view _ Position.portfolioId hm1 hpred.2 d1.positions hkey, hQ,
        ← find?_key_view _ Position.portfolioId hm2 hpred.2 d2.positions hkey]
    rw [hkf]
    cases hk : d2.positions.find?
        (fun q => q.portfolioId == id && q.symbol == symbol) with
    | none => rfl
    | some q0 =>
      dsimp only
      have hmapfind : ∀ l : List Position,
          (l.map (fun q => if q.portfolioId == id && q.symbol == symbol then
            upsertUpdate shares q else q)).find?
            (fun q => q.portfolioId == id && q.symbol == symbol) =
          (l.find? (fun q => q.portfolioId == id && q.symbol == symbol)).map
            (fun q => if q.portfolioId == id && q.symbol == symbol then
              upsertUpdate shares q else q) := by
        intro l
        rw [List.find?_map]
        refine congrArg _ (find?_congr_pred _ _ l (fun a _ => ?_))
        by_cases ha : a.portfolioId == id && a.symbol == symbol
        · rw [Function.comp_apply, if_pos ha, upsertUpdate_key]
        · rw [Function.comp_apply, if_neg ha]
      rw [hmapfind d1.positions, hmapfind d2.positions, hkf, hk]

/-- The response of updatePosition is a function of the caller-owned rows. -/
theorem updatePosition_resp (u id symbol : String) (shares averagePrice : ℚ)
    (d1 d2 : DB) (h1 : wfDB d1) (h2 : wfDB d2)
    (hagree : userView u d1 = userView u d2) :
    (updatePositionOp u id symbol shares averagePrice d1).2 =
      (updatePositionOp u id symbol shares averagePrice d2).2 := by
  have hQ : d1.positions.filter (fun q => ownsPortfolio u d1 q.portfolioId) =
      d2.positions.filter (fun q => ownsPortfolio u d2 q.portfolioId) :=
    congrArg DB.positions hagree
  have hfl : d1.positions.filter (fun q =>
      q.portfolioId == id && q.symbol == symbol &&
        ownsPortfolio u d1 q.portfolioId) =
      d2.positions.filter (fun q =>
        q.portfolioId == id && q.symbol == symbol &&
          ownsPortfolio u d2 q.portfolioId) := by
    have e1 : ∀ d : DB, d.positions.filter (fun q =>
        q.portfolioId == id && q.symbol == symbol &&
          ownsPortfolio u d q.portfolioId) =
        (d.positions.filter (fun q => ownsPortfolio u d q.portfolioId)).filter
          (fun q => q.portfolioId == id && q.symbol == symbol) :=
      fun d => (List.filter_filter _ _).symm
    rw [e1 d1, e1 d2, hQ]
  simp only [updatePositionOp]
  rw [hfl]
  by_cases hc : (d2.positions.filter (fun q =>
      q.portfolioId == id && q.symbol == symbol &&
        ownsPortfolio u d2 q.portfolioId)).length = 0
  · rw [if_pos hc, if_pos hc]
  · rw [if_neg hc, if_neg hc]
    have hx : ∃ x, x ∈ d2.positions.filter (fun q =>
        q.portfolioId == id && q.symbol == symbol &&
          ownsPortfolio u d2 q.portfolioId) :=
      List.exists_mem_of_length_pos (Nat.pos_of_ne_zero hc)
    rcases hx with ⟨x, hx2⟩
    have hx1 : x ∈ d1.positions.filter (fun q =>
        q.portfolioId == id && q.symbol == symbol &&
          ownsPortfolio u d1 q.portfolioId) := by
      rw [hfl]; exact hx2
    have hm2 := List.mem_filter.mp hx2
    have hm1 := List.mem_filter.mp hx1
    have hxk2 := hm2.2
    rw [Bool.and_eq_true, Bool.and_eq_true, beq_iff_eq, beq_iff_eq] at hxk2
    have hxk1 := hm1.2
    rw [Bool.and_eq_true, Bool.and_eq_true, beq_iff_eq, beq_iff_eq] at hxk1
    have hres : ∀ d : DB, wfDB d → x ∈ d.positions →
        ownsPortfolio u d x.portfolioId = true →
        ((d.positions.map (fun q =>
          if q.portfolioId == id && q.symbol == symbol &&
              ownsPortfolio u d q.portfolioId then
            (⟨q.portfolioId, q.symbol, shares, averagePrice, q.currentPrice,
              q.marketValue, q.costBasis, q.gain, q.gainPercent, q.weight⟩ :
              Position)
          else q)).find?
          (fun q => q.portfolioId == id && q.symbol == symbol)) =
        some (⟨x.portfolioId, x.symbol, shares, averagePrice, x.currentPrice,
          x.marketValue, x.costBasis, x.gain, x.gainPercent, x.weight⟩ :
          Position) := by
      intro d hwf hm ho
      rw [List.find?_map]
      have hpid : ∀ q : Position,
          ((fun q : Position => q.portfolioId == id && q.symbol == symbol) ∘
            (fun q => if q.portfolioId == id && q.symbol == symbol &&
                ownsPortfolio u d q.portfolioId then
              (⟨q.portfolioId, q.symbol, shares, averagePrice, q.currentPrice,
                q.marketValue, q.costBasis, q.gain, q.gainPercent, q.weight⟩ :
                Position)
            else q)) q =
          (q.portfolioId == id && q.symbol == symbol) := by
        intro q
        by_cases hq : q.portfolioId == id && q.symbol == symbol &&
            ownsPortfolio u d q.portfolioId <;> simp [Function.comp, hq]
      rw [find?_congr_pred _ _ _ (fun a _ => hpid a)]
      rw [show (fun q : Position => q.portfolioId == id && q.symbol == symbol) =
        (fun q : Position =>
          Position.portfolioId q == id && Position.symbol q == symbol) from rfl]
      rw [nodup_key2_find? Position.portfolioId Position.symbol id symbol
        d.positions hwf.2 x hm hxk2.1.1 hxk2.1.2]
      have hhit : (x.portfolioId == id && x.symbol == symbol &&
          ownsPortfolio u d x.portfolioId) = true := by
        rw [Bool.and_eq_true, Bool.and_eq_true, beq_iff_eq, beq_iff_eq]
        exact ⟨⟨hxk2.1.1, hxk2.1.2⟩, ho⟩
      rw [Option.map_some', if_pos hhit]
    rw [hres d1 h1 hm1.1 hxk1.2, hres d2 h2 hm2.1 hxk2.2]

/-- The response of removePosition is a function of the caller-owned rows. -/
theorem removePosition_resp (u id symbol : String) (d1 d2 : DB)
    (hagree : userView u d1 = userView u d2) :
    (removePositionOp u id symbol d1).2 = (removePositionOp u id symbol d2).2 := by
  have hQ : d1.positions.filter (fun q => ownsPortfolio u d1 q.portfolioId) =
      d2.positions.filter (fun q => ownsPortfolio u d2 q.portfolioId) :=
    congrArg DB.positions hagree
  have hfl : d1.positions.filter (fun q =>
      q.portfolioId == id && q.symbol == symbol &&
        ownsPortfolio u d1 q.portfolioId) =
      d2.positions.filter (fun q =>
        q.portfolioId == id && q.symbol == symbol &&
          ownsPortfolio u d2 q.portfolioId) := by
    have e1 : ∀ d : DB, d.positions.filter (fun q =>
        q.portfolioId == id && q.symbol == symbol &&
          ownsPortfolio u d q.portfolioId) =
        (d.positions.filter (fun q => ownsPortfolio u d q.portfolioId)).filter
          (fun q => q.portfolioId == id && q.symbol == symbol) :=
      fun d => (List.filter_filter _ _).symm
    rw [e1 d1, e1 d2, hQ]
  simp only [removePositionOp]
  rw [hfl]
  by_cases hc : (d2.positions.filter (fun q =>
      q.portfolioId == id && q.symbol == symbol &&
        ownsPortfolio u d2 q.portfolioId)).length = 0
  · rw [if_pos hc, if_pos hc]
  · rw [if_neg hc, if_neg hc]

/-- The response of addTransaction is a function of the caller-owned rows. -/
theorem addTransaction_resp (u id symbol : String) (ty : TxnType)
    (shares price fees : ℚ) (notes : Option String) (now : Nat) (d1 d2 : DB)
    (hagree : userView u d1 = userView u d2) :
    (addTransactionOp u id symbol ty shares price fees notes now d1).2 =
      (addTransactionOp u id symbol ty shares price fees notes now d2).2 := by
  have hP : d1.portfolios.filter (fun p => p.userId == u) =
      d2.portfolios.filter (fun p => p.userId == u) :=
    congrArg DB.portfolios hagree
  have hfind : d1.portfolios.find? (fun p => p.pid == id && p.userId == u) =
      d2.portfolios.find? (fun p => p.pid == id && p.userId == u) := by
    rw [find?_and_filter, find?_and_filter, hP]
  unfold addTransactionOp
  rw [hfind]
  cases hf : d2.portfolios.find? (fun p => p.pid == id && p.userId == u) with
  | none => rfl
  | some p0 => rfl

/-- Both branches of a throw-or-respond pair share the state component. -/
theorem fst_ite_pair {α β : Type} (c : Prop) [Decidable c] (a : α) (x y : β) :
    (if c then (a, x) else (a, y)).1 = a := by
  by_cases h : c <;> simp [h]

/-- createPortfolio leaves the rows of every other user untouched. -/
theorem createPortfolio_frame (u name freshId : String) (now : Nat) (d : DB) :
    othersView u (createPortfolioOp u name freshId now d).1 = othersView u d := by
  have hp : othersPortfolios u (createPortfolioOp u name freshId now d).1 =
      othersPortfolios u d := by
    unfold createPortfolioOp othersPortfolios
    dsimp only
    rw [List.filter_append]
    simp
  refine othersView_eq hp ?_ ?_
  · exact List.filter_congr (fun q _ => ownedByOther_congr hp q.portfolioId)
  · exact List.filter_congr (fun t _ => ownedByOther_congr hp t.portfolioId)

/-- updatePortfolio leaves the rows of every other user untouched. -/
theorem updatePortfolio_frame (u id name : String) (d : DB) :
    othersView u (updatePortfolioOp u id name d).1 = othersView u d := by
  have hd : (updatePortfolioOp u id name d).1 =
      (⟨d.portfolios.map (fun p =>
          if p.pid == id && p.userId == u then
            (⟨p.pid, p.userId, name, p.createdAt⟩ : Portfolio) else p),
        d.positions, d.transactions⟩ : DB) := by
    simp only [updatePortfolioOp, fst_ite_pair]
  rw [hd]
  have hp : othersPortfolios u
      (⟨d.portfolios.map (fun p =>
          if p.pid == id && p.userId == u then
            (⟨p.pid, p.userId, name, p.createdAt⟩ : Portfolio) else p),
        d.positions, d.transactions⟩ : DB) = othersPortfolios u d := by
    unfold othersPortfolios
    dsimp only
    refine filter_map_invariant _ _ (fun p => ?_) (fun p hp => ?_) d.portfolios
    · by_cases h : p.pid == id && p.userId == u <;> simp [h]
    · have h0 : (p.userId == u) = false := by simpa using hp
      simp [h0]
  refine othersView_eq hp ?_ ?_
  · exact List.filter_congr (fun q _ => ownedByOther_congr hp q.portfolioId)
  · exact List.filter_congr (fun t _ => ownedByOther_congr hp t.portfolioId)

/-- deletePortfolio leaves the rows of every other user untouched. -/
theorem deletePortfolio_frame (u id : String) (d : DB)
    (hwf : (d.portfolios.map Portfolio.pid).Nodup) :
    othersView u (deletePortfolioOp u id d).1 = othersView u d := by
  have hd : (deletePortfolioOp u id d).1 =
      (⟨d.portfolios.filter (fun p => !(p.pid == id && p.userId == u)),
        d.positions.filter (fun q =>
          !((d.portfolios.filter (fun p => p.pid == id && p.userId == u)).any
            (fun p => p.pid == q.portfolioId))),
        d.transactions.filter (fun t =>
          !((d.portfolios.filter (fun p => p.pid == id && p.userId == u)).any
            (fun p => p.pid == t.portfolioId)))⟩ : DB) := by
    simp only [deletePortfolioOp, fst_ite_pair]
  rw [hd]
  have himp : ∀ a ∈ d.portfolios,
      (!(a.userId == u)) = true → (!(a.pid == id && a.userId == u)) = true := by
    intro a _ ha
    have h0 : (a.userId == u) = false := by simpa using ha
    simp [h0]
  have hp : othersPortfolios u
      (⟨d.portfolios.filter (fun p => !(p.pid == id && p.userId == u)),
        d.positions.filter (fun q =>
          !((d.portfolios.filter (fun p => p.pid == id && p.userId == u)).any
            (fun p => p.pid == q.portfolioId))),
        d.transactions.filter (fun t =>
          !((d.portfolios.filter (fun p => p.pid == id && p.userId == u)).any
            (fun p => p.pid == t.portfolioId)))⟩ : DB) =
      othersPortfolios u d := by
    unfold othersPortfolios
    dsimp only
    exact filter_filter_of_imp _ _ d.portfolios himp
  have hchild : ∀ k : String, ownedByOther u d k = true →
      (!((d.portfolios.filter (fun p => p.pid == id && p.userId == u)).any
        (fun p => p.pid == k))) = true := by
    intro k hk
    rw [Bool.not_eq_true']
    cases hany : (d.portfolios.filter (fun p => p.pid == id && p.userId == u)).any
        (fun p => p.pid == k) with
    | false => rfl
    | true =>
      exfalso
      rcases List.any_eq_true.mp hany with ⟨m, hm, hmk⟩
      have hmm := List.mem_filter.mp hm
      have hmk2 := hmm.2
      rw [Bool.and_eq_true, beq_iff_eq, beq_iff_eq] at hmk2
      have howns : ownsPortfolio u d k = true :=
        owns_of_mem hmm.1 hmk2.2 (beq_iff_eq.mp hmk)
      rw [not_ownedByOther_of_owns hwf howns] at hk
      cases hk
  refine othersView_eq hp ?_ ?_
  · refine Eq.trans
      (List.filter_congr (fun q _ => ownedByOther_congr hp q.portfolioId)) ?_
    exact filter_filter_of_imp _ _ d.positions
      (fun q _ hq => hchild q.portfolioId hq)
  · refine Eq.trans
      (List.filter_congr (fun t _ => ownedByOther_congr hp t.portfolioId)) ?_
    exact filter_filter_of_imp _ _ d.transactions
      (fun t _ ht => hchild t.portfolioId ht)

/-- Ownership by another user only inspects the portfolio table. -/
theorem ownedByOther_same_portfolios (u : String) (d : DB) (P : List Position)
    (T : List Txn) (k : String) :
    ownedByOther u (⟨d.portfolios, P, T⟩ : DB) k = ownedByOther u d k := rfl

/-- addPosition leaves the rows of every other user untouched. -/
theorem addPosition_frame (u id symbol : String) (shares averagePrice : ℚ)
    (d : DB) (hwf : (d.portfolios.map Portfolio.pid).Nodup) :
    othersView u (addPositionOp u id symbol shares averagePrice d).1 =
      othersView u d := by
  unfold addPositionOp
  cases hf : d.portfolios.find? (fun p => p.pid == id && p.userId == u) with
  | none => rfl
  | some p0 =>
    dsimp only
    have hpred := List.find?_some hf
    rw [Bool.and_eq_true, beq_iff_eq, beq_iff_eq] at hpred
    have hob : ownedByOther u d id = false :=
      not_ownedByOther_of_owns hwf
        (owns_of_mem (List.mem_of_find?_eq_some hf) hpred.2 hpred.1)
    cases hk : d.positions.find?
        (fun q => q.portfolioId == id && q.symbol == symbol) with
    | some q0 =>
      dsimp only
      refine othersView_eq rfl ?_ rfl
      simp only [ownedByOther_same_portfolios]
      refine filter_map_invariant _ _ (fun q => ?_) (fun q hq => ?_) d.positions
      · by_cases h : q.portfolioId == id && q.symbol == symbol
        · rw [if_pos h]
          rfl
        · rw [if_neg h]
      · have hkq : (q.portfolioId == id && q.symbol == symbol) = false := by
          cases h : (q.portfolioId == id && q.symbol == symbol) with
          | false => rfl
          | true =>
            exfalso
            rw [Bool.and_eq_true, beq_iff_eq] at h
            rw [h.1, hob] at hq
            cases hq
        rw [hkq]
        simp
    | none =>
      dsimp only
      refine othersView_eq rfl ?_ rfl
      simp only [ownedByOther_same_portfolios]
      rw [List.filter_append]
      have hnew : ownedByOther u d
          (upsertCreate id symbol shares averagePrice).portfolioId = false := hob
      simp [List.filter_cons, hnew]

/-- updatePosition leaves the rows of every other user untouched. -/
theorem updatePosition_frame (u id symbol : String) (shares averagePrice : ℚ)
    (d : DB) (hwf : (d.portfolios.map Portfolio.pid).Nodup) :
    othersView u (updatePositionOp u id symbol shares averagePrice d).1 =
      othersView u d := by
  have hd : (updatePositionOp u id symbol shares averagePrice d).1 =
      (⟨d.portfolios, d.positions.map (fun q =>
        if q.portfolioId == id && q.symbol == symbol &&
            ownsPortfolio u d q.portfolioId then
          (⟨q.portfolioId, q.symbol, shares, averagePrice, q.currentPrice,
            q.marketValue, q.costBasis, q.gain, q.gainPercent, q.weight⟩ :
            Position)
        else q), d.transactions⟩ : DB) := by
    simp only [updatePositionOp, fst_ite_pair]
  rw [hd]
  refine othersView_eq rfl ?_ rfl
  simp only [ownedByOther_same_portfolios]
  refine filter_map_invariant _ _ (fun q => ?_) (fun q hq => ?_) d.positions
  · by_cases h : q.portfolioId == id && q.symbol == symbol &&
        ownsPortfolio u d q.portfolioId
    · rw [if_pos h]
    · rw [if_neg h]
  · have ho : ownsPortfolio u d q.portfolioId = false := by
      cases h : ownsPortfolio u d q.portfolioId with
      | false => rfl
      | true =>
        exfalso
        rw [not_ownedByOther_of_owns hwf h] at hq
        cases hq
    simp [ho]

/-- removePosition leaves the rows of every other user untouched. -/
theorem removePosition_frame (u id symbol : String) (d : DB)
    (hwf : (d.portfolios.map Portfolio.pid).Nodup) :
    othersView u (removePositionOp u id symbol d).1 = othersView u d := by
  have hd : (removePositionOp u id symbol d).1 =
      (⟨d.portfolios, d.positions.filter (fun q =>
        !(q.portfolioId == id && q.symbol == symbol &&
          ownsPortfolio u d q.portfolioId)), d.transactions⟩ : DB) := by
    simp only [removePositionOp, fst_ite_pair]
  rw [hd]
  refine othersView_eq rfl ?_ rfl
  simp only [ownedByOther_same_portfolios]
  refine filter_filter_of_imp _ _ d.positions (fun q _ hq => ?_)
  have ho : ownsPortfolio u d q.portfolioId = false := by
    cases h : ownsPortfolio u d q.portfolioId with
    | false => rfl
    | true =>
      exfalso
      rw [not_ownedByOther_of_owns hwf h] at hq
      cases hq
  simp [ho]

/-- addTransaction leaves the rows of every other user untouched. -/
theorem addTransaction_frame (u id symbol : String) (ty : TxnType)
    (shares price fees : ℚ) (notes : Option String) (now : Nat) (d : DB)
    (hwf : (d.portfolios.map Portfolio.pid).Nodup) :
    othersView u (addTransactionOp u id symbol ty shares price fees notes now
      d).1 = othersView u d := by
  unfold addTransactionOp
  cases hf : d.portfolios.find? (fun p => p.pid == id && p.userId == u) with
  | none => rfl
  | some p0 =>
    dsimp only
    have hpred := List.find?_some hf
    rw [Bool.and_eq_true, beq_iff_eq, beq_iff_eq] at hpred
    have hob : ownedByOther u d id = false :=
      not_ownedByOther_of_owns hwf
        (owns_of_mem (List.mem_of_find?_eq_some hf) hpred.2 hpred.1)
    refine othersView_eq rfl rfl ?_
    simp only [ownedByOther_same_portfolios]
    rw [List.filter_append]
    have hnew : ownedByOther u d
        (mkTxn u id symbol ty shares price fees notes now).portfolioId =
        false := hob
    simp [List.filter_cons, hnew]

/-- getPortfolio never writes the store. -/
theorem getPortfolio_frame (u id : String) (d : DB) :
    othersView u (getPortfolioOp u id d).1 = othersView u d := by
  unfold getPortfolioOp
  cases d.portfolios.find? (fun p => p.pid == id && p.userId == u) <;> rfl

/-- C8: under schema well-formedness (unique portfolio ids and unique
position keys), every portfolio-controller operation run for user u returns
a response determined solely by the rows u owns (two stores agreeing on the
u-owned rows are indistinguishable), and never alters any row owned by
another user. -/
theorem C8_user_isolation (u : String) (op : Op) (d1 d2 : DB)
    (h1 : wfDB d1) (h2 : wfDB d2) (hagree : userView u d1 = userView u d2) :
    (exec u op d1).2 = (exec u op d2).2 ∧
    othersView u (exec u op d1).1 = othersView u d1 ∧
    othersView u (exec u op d2).1 = othersView u d2 := by
  cases op with
  | getPortfolios =>
    exact ⟨getPortfolios_resp u d1 d2 hagree, rfl, rfl⟩
  | getPortfolio id =>
    exact ⟨getPortfolio_resp u id d1 d2 hagree,
      getPortfolio_frame u id d1, getPortfolio_frame u id d2⟩
  | createPortfolio name freshId now =>
    exact ⟨createPortfolio_resp u name freshId now d1 d2,
      createPortfolio_frame u name freshId now d1,
      createPortfolio_frame u name freshId now d2⟩
  | updatePortfolio id name =>
    exact ⟨updatePortfolio_resp u id name d1 d2 h1 h2 hagree,
      updatePortfolio_frame u id name d1, updatePortfolio_frame u id name d2⟩
  | deletePortfolio id =>
    exact ⟨deletePortfolio_resp u id d1 d2 hagree,
      deletePortfolio_frame u id d1 h1.1, deletePortfolio_frame u id d2 h2.1⟩
  | getPositions id =>
    exact ⟨getPositions_resp u id d1 d2 hagree, rfl, rfl⟩
  | addPosition id symbol shares averagePrice =>
    exact ⟨addPosition_resp u id symbol shares averagePrice d1 d2 hagree,
      addPosition_frame u id symbol shares averagePrice d1 h1.1,
      addPosition_frame u id symbol shares averagePrice d2 h2.1⟩
  | updatePosition id symbol shares averagePrice =>
    exact ⟨updatePosition_resp u id symbol shares averagePrice d1 d2 h1 h2 hagree,
      updatePosition_frame u id symbol shares averagePrice d1 h1.1,
      updatePosition_frame u id symbol shares averagePrice d2 h2.1⟩
  | removePosition id symbol =>
    exact ⟨removePosition_resp u id symbol d1 d2 hagree,
      removePosition_frame u id symbol d1 h1.1,
      removePosition_frame u id symbol d2 h2.1⟩
  | getTransactions id limit offset =>
    exact ⟨getTransactions_resp u id limit offset d1 d2 hagree, rfl, rfl⟩
  | addTransaction id symbol ty shares price fees notes now =>
    exact ⟨addTransaction_resp u id symbol ty shares price fees notes now d1 d2
        hagree,
      addTransaction_frame u id symbol ty shares price fees notes now d1 h1.1,
      addTransaction_frame u id symbol ty shares price fees notes now d2 h2.1⟩

/-- C8, witness: the alice store with and without a bob portfolio agree on
the alice-owned rows, so getPortfolios answers alice identically and leaves
the bob rows alone. -/
theorem C8_user_isolation_witness :
    (exec "alice" .getPortfolios aliceDB).2 =
      (exec "alice" .getPortfolios bobDB).2 ∧
    othersView "alice" (exec "alice" .getPortfolios aliceDB).1 =
      othersView "alice" aliceDB ∧
    othersView "alice" (exec "alice" .getPortfolios bobDB).1 =
      othersView "alice" bobDB :=
  C8_user_isolation "alice" .getPortfolios aliceDB bobDB
    (by constructor <;> simp [wfDB, aliceDB])
    (by constructor <;> simp [wfDB, bobDB])
    (by with_unfolding_all rfl)
